import Mathlib

/-!
# Agent statistics (`api/agent/stats.go`)

A shallow embedding of the call-lifecycle recorders, the latency and retry
recorders, the dynamically built docker / container instruments and the view
registration of `api/agent/stats.go`, together with the properties of the
specification that concern them.

The aggregation engine (`go.opencensus.io/stats` and `.../stats/view`) is not
part of the repository.  It is represented by its instrument registry, by the
log of measurements that `stats.Record` has received, and by the list of
registered views; a view is the aggregation of the samples of its measure found
in that log.  The tag context `ctx` only groups rows of a view; the totals
below are taken over all tags, so `ctx` is not represented.
-/

namespace Agent

/-! ## Instruments and the recording log -/

/-- An int64 measure handle: what `stats.Int64(name, description, unit)` returns. -/
structure Int64Measure where
  name : String
  description : String
  unit : String
deriving DecidableEq, Repr

/-- One measurement: the result of `measure.M(value)`. -/
structure Measurement where
  measure : Int64Measure
  value : Int
deriving DecidableEq, Repr

/-- The measurements received by `stats.Record`, oldest first. -/
abbrev Recorded := List Measurement

/-- The process-wide table of instruments kept by the `stats` package, oldest
first. -/
abbrev Registry := List Int64Measure

/-- The opencensus `stats.Int64(name, description, unit)`, which is outside the
repository: it returns the instrument first created under `name`, with that
instrument's description and unit, and creates and stores a new instrument only
when the name is new.  It has no error result. -/
def statsInt64 (reg : Registry) (name : String) (description : String) (unit : String) :
    Int64Measure × Registry :=
  match reg.find? (fun m => m.name = name) with
  | some stored => (stored, reg)
  | none =>
    ({ name := name, description := description, unit := unit },
      reg ++ [{ name := name, description := description, unit := unit }])

/-- Go `makeMeasure`: `return stats.Int64(name, desc, unit)`, with the registry
it reads and updates passed explicitly.  The result type `*stats.Int64Measure`
has no error component. -/
def makeMeasure (reg : Registry) (name : String) (desc : String) (unit : String) :
    Int64Measure × Registry :=
  statsInt64 reg name desc unit

/-- Go `m.M(v)`. -/
def Int64Measure.M (m : Int64Measure) (v : Int) : Measurement :=
  { measure := m, value := v }

/-- Go `stats.Record(ctx, ms)`: the measurement is handed to the engine. -/
def statsRecord (log : Recorded) (ms : Measurement) : Recorded :=
  log ++ [ms]

/-! ## Names and static measures -/

def queuedMetricName : String := "queued"
def callsMetricName : String := "calls"
def runningMetricName : String := "running"
def completedMetricName : String := "completed"
def failedMetricName : String := "failed"
def timedoutMetricName : String := "timeouts"
def errorsMetricName : String := "errors"
def serverBusyMetricName : String := "server_busy"
def retryMetricName : String := "retry"
def runnerSchedLatencyMetricName : String := "lb_runner_sched_latency"
def runnerExecLatencyMetricName : String := "lb_runner_exec_latency"

/-- The first eight initialisers of the `var` block run in declaration order;
each sees the instruments of the initialisers before it. -/
def queuedMeasure : Int64Measure :=
  (makeMeasure [] queuedMetricName "calls currently queued against agent" "").1
def callsMeasure : Int64Measure :=
  (makeMeasure [queuedMeasure] callsMetricName "calls created in agent" "").1
def runningMeasure : Int64Measure :=
  (makeMeasure [queuedMeasure, callsMeasure] runningMetricName
    "calls currently running in agent" "").1
def completedMeasure : Int64Measure :=
  (makeMeasure [queuedMeasure, callsMeasure, runningMeasure] completedMetricName
    "calls completed in agent" "").1
def failedMeasure : Int64Measure :=
  (makeMeasure [queuedMeasure, callsMeasure, runningMeasure, completedMeasure]
    failedMetricName "calls failed in agent" "").1
def timedoutMeasure : Int64Measure :=
  (makeMeasure [queuedMeasure, callsMeasure, runningMeasure, completedMeasure, failedMeasure]
    timedoutMetricName "calls timed out in agent" "").1
def errorsMeasure : Int64Measure :=
  (makeMeasure
    [queuedMeasure, callsMeasure, runningMeasure, completedMeasure, failedMeasure,
      timedoutMeasure]
    errorsMetricName "calls errored in agent" "").1
def serverBusyMeasure : Int64Measure :=
  (makeMeasure
    [queuedMeasure, callsMeasure, runningMeasure, completedMeasure, failedMeasure,
      timedoutMeasure, errorsMeasure]
    serverBusyMetricName "calls where server was too busy in agent" "").1

/-- The registry after the first eight initialisers of the `var` block. -/
def staticRegistry : Registry :=
  [queuedMeasure, callsMeasure, runningMeasure, completedMeasure, failedMeasure,
    timedoutMeasure, errorsMeasure, serverBusyMeasure]

/-! ## Docker instruments -/

/-- Go `strings.Contains` on character lists: some suffix of `s` starts with `sub`. -/
def containsChars : List Char → List Char → Bool
  | [], sub => sub.isEmpty
  | c :: cs, sub => sub.isPrefixOf (c :: cs) || containsChars cs sub

/-- Go `strings.Contains(s, substr)`. -/
def stringsContains (s : String) (substr : String) : Bool :=
  containsChars s.data substr.data

/-- A Go `map[string]*stats.Int64Measure`, as its entries in insertion order. -/
abbrev MeasureMap := List (String × Int64Measure)

/-- Go `m[k] = v`. -/
def mapSet (m : MeasureMap) (k : String) (v : Int64Measure) : MeasureMap :=
  if m.any (fun e => e.1 = k) then m.map (fun e => if e.1 = k then (k, v) else e)
  else m ++ [(k, v)]

/-- Go `m[k]`, with `none` for a missing key. -/
def mapGet (m : MeasureMap) (k : String) : Option Int64Measure :=
  (m.find? (fun e => e.1 = k)).map Prod.snd

/-- The key list in `initDockerMeasures`. -/
def dockerKeys : List String :=
  ["net_rx", "net_tx", "mem_limit", "mem_usage", "disk_read", "disk_write",
   "cpu_user", "cpu_total", "cpu_kernel"]

/-- The loop of `initDockerMeasures` over the keys left to visit. -/
def dockerLoop : List String → Registry → MeasureMap → MeasureMap × Registry
  | [], reg, measures => (measures, reg)
  | key :: rest, reg, measures =>
    let units := if stringsContains key "cpu" then "cpu" else "bytes"
    let r := makeMeasure reg ("docker_stats_" ++ key) ("docker container stats for " ++ key) units
    dockerLoop rest r.2 (mapSet measures key r.1)

/-- Go `initDockerMeasures`, from the registry it finds. -/
def initDockerMeasures (reg : Registry) : MeasureMap × Registry :=
  dockerLoop dockerKeys reg []

/-- Go `dockerMeasures = initDockerMeasures()`, the ninth initialiser of the
`var` block. -/
def dockerMeasures : MeasureMap :=
  (initDockerMeasures staticRegistry).1

/-- The registry after `dockerMeasures` is initialised. -/
def dockerRegistry : Registry :=
  (initDockerMeasures staticRegistry).2

/-- The last three initialisers of the `var` block.  The container measures are
initialised between `dockerMeasures` and these, from key lists declared
elsewhere; whatever they add to the registry, the instrument returned here has
the same name (`makeMeasure_name` below), and the samples and totals of this
file depend on the name only. -/
def perInstanceRetryMeasure : Int64Measure :=
  (makeMeasure dockerRegistry retryMetricName "per-invocation retry count" "").1
def runnerSchedLatencyMeasure : Int64Measure :=
  (makeMeasure (dockerRegistry ++ [perInstanceRetryMeasure]) runnerSchedLatencyMetricName
    "Runner Scheduler Latency Reported By LBAgent" "msecs").1
def runnerExecLatencyMeasure : Int64Measure :=
  (makeMeasure (dockerRegistry ++ [perInstanceRetryMeasure, runnerSchedLatencyMeasure])
    runnerExecLatencyMetricName
    "Runner Container Execution Latency Reported By LBAgent" "msecs").1

/-! ## Call lifecycle recorders -/

def statsEnqueue (log : Recorded) : Recorded :=
  statsRecord (statsRecord log (queuedMeasure.M 1)) (callsMeasure.M 1)

def statsDequeue (log : Recorded) : Recorded :=
  statsRecord log (queuedMeasure.M (-1))

def statsDequeueAndStart (log : Recorded) : Recorded :=
  statsRecord (statsRecord log (queuedMeasure.M (-1))) (runningMeasure.M 1)

def statsComplete (log : Recorded) : Recorded :=
  statsRecord (statsRecord log (runningMeasure.M (-1))) (completedMeasure.M 1)

def statsFailed (log : Recorded) : Recorded :=
  statsRecord (statsRecord log (runningMeasure.M (-1))) (failedMeasure.M 1)

def statsDequeueAndFail (log : Recorded) : Recorded :=
  statsRecord (statsRecord log (queuedMeasure.M (-1))) (failedMeasure.M 1)

def statsTimedout (log : Recorded) : Recorded :=
  statsRecord log (timedoutMeasure.M 1)

def statsErrors (log : Recorded) : Recorded :=
  statsRecord log (errorsMeasure.M 1)

def statsTooBusy (log : Recorded) : Recorded :=
  statsRecord log (serverBusyMeasure.M 1)

/-- Go `time.Millisecond`, in nanoseconds. -/
def timeMillisecond : Int := 1000000

/-- Go `statsLBAgentRunnerSchedLatency`: `dur/time.Millisecond` is the int64
quotient, which truncates toward zero. -/
def statsLBAgentRunnerSchedLatency (log : Recorded) (dur : Int) : Recorded :=
  statsRecord log (runnerSchedLatencyMeasure.M (Int.tdiv dur timeMillisecond))

def statsLBAgentRunnerExecLatency (log : Recorded) (dur : Int) : Recorded :=
  statsRecord log (runnerExecLatencyMeasure.M (Int.tdiv dur timeMillisecond))

/-- Go `statsNoRetriesPerCall`: takes the context only and records the constant 1. -/
def statsNoRetriesPerCall (log : Recorded) : Recorded :=
  statsRecord log (perInstanceRetryMeasure.M 1)

/-! ## Aggregations and views -/

/-- Modelled from the spec: the aggregation kinds of the engine (the opencensus
`view` package, outside the repository): running sum, occurrence count, or
bucketed distribution with the given bucket boundaries. -/
inductive Aggregation where
  | sum : Aggregation
  | count : Aggregation
  | distribution (bounds : List Int) : Aggregation
deriving DecidableEq, Repr

/-- Modelled from the spec: the samples of measure `m` that the engine has
received; an instrument is identified by its name. -/
def samplesOf (m : Int64Measure) (log : Recorded) : List Int :=
  (log.filter (fun x => x.measure.name = m.name)).map (fun x => x.value)

/-- Modelled from the spec: the value of a `Sum` view, the running sum of the
recorded deltas. -/
def sumData (m : Int64Measure) (log : Recorded) : Int :=
  (samplesOf m log).sum

/-- Modelled from the spec: the value of a `Count` view, the number of recorded
measurements whatever their values. -/
def countData (m : Int64Measure) (log : Recorded) : Int :=
  ((samplesOf m log).length : Int)

/-- Modelled from the spec: the bucket of a distribution that receives the
sample `v`: bucket `i` is the half-open range between consecutive boundaries,
bucket 0 lies below the first boundary and the last bucket starts at the last
boundary. -/
def bucketIndex : List Int → Int → Nat
  | [], _ => 0
  | b :: bs, v => if v < b then 0 else bucketIndex bs v + 1

/-- Modelled from the spec: the per-bucket sample counts of a distribution. -/
def countPerBucket (bounds : List Int) (samples : List Int) : List Nat :=
  (List.range (bounds.length + 1)).map
    (fun i => samples.countP (fun v => bucketIndex bounds v = i))

/-- The totals of the views registered by `RegisterAgentViews`, all `view.Sum()`. -/
def queued (log : Recorded) : Int := sumData queuedMeasure log
def calls (log : Recorded) : Int := sumData callsMeasure log
def running (log : Recorded) : Int := sumData runningMeasure log
def completed (log : Recorded) : Int := sumData completedMeasure log
def failed (log : Recorded) : Int := sumData failedMeasure log
def timeouts (log : Recorded) : Int := sumData timedoutMeasure log
def errors (log : Recorded) : Int := sumData errorsMeasure log
def serverBusy (log : Recorded) : Int := sumData serverBusyMeasure log

/-! ## Traces of recorder calls -/

/-- The recorder functions that take the context only. -/
inductive Op where
  | enqueue | dequeue | dequeueAndStart | complete | failed | dequeueAndFail
  | timedout | errors | tooBusy
deriving DecidableEq, Repr

/-- One recorder call. -/
def step (log : Recorded) : Op → Recorded
  | .enqueue => statsEnqueue log
  | .dequeue => statsDequeue log
  | .dequeueAndStart => statsDequeueAndStart log
  | .complete => statsComplete log
  | .failed => statsFailed log
  | .dequeueAndFail => statsDequeueAndFail log
  | .timedout => statsTimedout log
  | .errors => statsErrors log
  | .tooBusy => statsTooBusy log

/-- A sequence of recorder calls, in the order the engine receives them. -/
def run (log : Recorded) (ops : List Op) : Recorded :=
  ops.foldl step log

/-- Calls are told apart by an identifier; a trace is the sequence of recorder
calls as the engine receives them, each with the call it belongs to. -/
abbrev Trace := List (Nat × Op)

/-- Runs the recorder calls of a trace in order. -/
def runTrace (log : Recorded) (t : Trace) : Recorded :=
  run log (t.map Prod.snd)

/-- The recorder calls of call `c` in the trace, in order. -/
def callOps (c : Nat) (t : Trace) : List Op :=
  (t.filter (fun e => e.1 = c)).map Prod.snd

/-- The operations that move a call through queued, running and its end. -/
def isLifecycle : Op → Bool
  | .timedout => false
  | .errors => false
  | .tooBusy => false
  | _ => true

/-- The lifecycle operations of call `c` in the trace, in order. -/
def lifecycleOps (c : Nat) (t : Trace) : List Op :=
  (callOps c t).filter isLifecycle

/-- The well-formed call paths: enqueue, then dequeue, or dequeue-and-fail, or
dequeue-and-start followed by complete or failed. -/
def callPaths : List (List Op) :=
  [[.enqueue, .dequeue], [.enqueue, .dequeueAndFail],
   [.enqueue, .dequeueAndStart, .complete], [.enqueue, .dequeueAndStart, .failed]]

/-- The identifiers of the calls that occur in a trace. -/
def callIds (t : Trace) : Finset Nat :=
  (t.map Prod.fst).toFinset

/-- An interleaving of prefixes of well-formed call paths, with timeout, error
and too-busy events anywhere. -/
def WellFormed (t : Trace) : Prop :=
  ∀ c ∈ t.map Prod.fst, ∃ path ∈ callPaths, lifecycleOps c t <+: path

instance (t : Trace) : Decidable (WellFormed t) := by
  unfold WellFormed; infer_instance

/-- Call `c` has been enqueued and not yet dequeued. -/
def InQueue (t : Trace) (c : Nat) : Prop :=
  Op.enqueue ∈ callOps c t ∧ Op.dequeue ∉ callOps c t ∧
    Op.dequeueAndFail ∉ callOps c t ∧ Op.dequeueAndStart ∉ callOps c t

/-- Call `c` has been started and not yet completed or failed. -/
def IsRunning (t : Trace) (c : Nat) : Prop :=
  Op.dequeueAndStart ∈ callOps c t ∧ Op.complete ∉ callOps c t ∧ Op.failed ∉ callOps c t

/-- Call `c` has been enqueued and has not reached its terminating event. -/
def InFlight (t : Trace) (c : Nat) : Prop :=
  Op.enqueue ∈ callOps c t ∧ Op.dequeue ∉ callOps c t ∧ Op.dequeueAndFail ∉ callOps c t ∧
    Op.complete ∉ callOps c t ∧ Op.failed ∉ callOps c t

instance (t : Trace) : DecidablePred (InQueue t) := fun _ => by
  unfold InQueue; infer_instance

instance (t : Trace) : DecidablePred (IsRunning t) := fun _ => by
  unfold IsRunning; infer_instance

instance (t : Trace) : DecidablePred (InFlight t) := fun _ => by
  unfold InFlight; infer_instance

/-! ## Container-state and container-time instruments -/

/-- The loop shared by `initContainerGaugeMeasures` and
`initContainerTimeMeasures`, which differ in the description and the unit only:
at index `i` with `keys` left to visit, an empty key leaves the slot nil
("leave nil intentionally"), any other key stores `makeMeasure(key, ...)`. -/
def containerLoop (desc : String → String) (unit : String) (i : Nat) :
    List String → Registry → List (Option Int64Measure) →
      List (Option Int64Measure) × Registry
  | [], reg, measures => (measures, reg)
  | key :: rest, reg, measures =>
    if key = "" then containerLoop desc unit (i + 1) rest reg measures
    else
      containerLoop desc unit (i + 1) rest (makeMeasure reg key (desc key) unit).2
        (measures.set i (some (makeMeasure reg key (desc key) unit).1))

/-- Go `initContainerGaugeMeasures`; the key list `containerGaugeKeys` is declared
elsewhere in the package and is taken as a parameter. -/
def initContainerGaugeMeasures (reg : Registry) (containerGaugeKeys : List String) :
    List (Option Int64Measure) × Registry :=
  containerLoop (fun key => "containers in state " ++ key) "" 0 containerGaugeKeys reg
    (List.replicate containerGaugeKeys.length none)

/-- Go `initContainerTimeMeasures`; `containerTimeKeys` is taken as a parameter. -/
def initContainerTimeMeasures (reg : Registry) (containerTimeKeys : List String) :
    List (Option Int64Measure) × Registry :=
  containerLoop (fun key => "time spent in container state " ++ key) "ms" 0 containerTimeKeys
    reg (List.replicate containerTimeKeys.length none)

/-! ## View registration -/

/-- A tag key, the result of `tag.NewKey`. -/
structure TagKey where
  name : String
deriving DecidableEq, Repr

/-- Go `view.View` as filled in by `createView`. -/
structure View where
  name : String
  description : String
  measure : Int64Measure
  tagKeys : List TagKey
  aggregation : Aggregation
deriving DecidableEq, Repr

/-- The ways registration can stop: a slice index out of range, a nil measure
dereferenced, or `logrus.Fatal` after an error of the engine. -/
inductive Fault where
  | indexOutOfRange | nilDereference | fatal
deriving DecidableEq, Repr

/-- The name checks of the engine, which the registration code does not
determine: which names `tag.NewKey` accepts, and which single views pass the
validation of `view.Register`. -/
structure Engine where
  keyOk : String → Bool
  viewOk : View → Bool

/-- Go `makeKeys`: a rejected name is fatal. -/
def makeKeys (e : Engine) : List String → Except Fault (List TagKey)
  | [] => .ok []
  | name :: rest =>
    if e.keyOk name then
      match makeKeys e rest with
      | .ok keys => .ok ({ name := name } :: keys)
      | .error f => .error f
    else .error .fatal

/-- Go `createView`: `measure.Name()` is evaluated first and dereferences the
measure pointer. -/
def createView (e : Engine) (measure : Option Int64Measure) (agg : Aggregation)
    (tagKeys : List String) : Except Fault View :=
  match measure with
  | none => .error .nilDereference
  | some m =>
    match makeKeys e tagKeys with
    | .ok keys =>
      .ok { name := m.name, description := m.description, measure := m,
            tagKeys := keys, aggregation := agg }
    | .error f => .error f

/-- The comparison the engine makes between a view and the registered view of
the same name: name, description, measure name, tag keys and aggregation. -/
def View.same (a : View) (b : View) : Bool :=
  decide (a.name = b.name ∧ a.description = b.description ∧
    a.measure.name = b.measure.name ∧ a.tagKeys = b.tagKeys ∧ a.aggregation = b.aggregation)

/-- The engine registering one validated view: a view whose name is new is
added; registering again a view that is the same as the registered one of that
name changes nothing; a different view under a registered name is an error. -/
def registerOne (views : List View) (v : View) : Except Fault (List View) :=
  match views.find? (fun x => x.name = v.name) with
  | some x => if x.same v then .ok views else .error .fatal
  | none => .ok (views ++ [v])

/-- The engine registering validated views one after the other. -/
def registerAll : List View → List View → Except Fault (List View)
  | views, [] => .ok views
  | views, v :: vs =>
    match registerOne views v with
    | .ok views' => registerAll views' vs
    | .error f => .error f

/-- The opencensus `view.Register(vs...)` followed by the `err != nil` check of
the caller: every view is validated, then the views are registered in order;
an error is fatal. -/
def viewRegister (e : Engine) (registered : List View) (vs : List View) :
    Except Fault (List View) :=
  if vs.all e.viewOk then registerAll registered vs else .error .fatal

/-- The loops of `RegisterContainerViews`, at index `i` with `keys` left to
visit; `measures[i]` is read only for a non-empty key. -/
def registerLoop (e : Engine) (agg : Aggregation) (measures : List (Option Int64Measure))
    (tagKeys : List String) (i : Nat) : List String → List View → Except Fault (List View)
  | [], registered => .ok registered
  | key :: rest, registered =>
    if key = "" then registerLoop e agg measures tagKeys (i + 1) rest registered
    else
      match measures[i]? with
      | none => .error .indexOutOfRange
      | some measure =>
        match createView e measure agg tagKeys with
        | .error f => .error f
        | .ok v =>
          match viewRegister e registered [v] with
          | .error f => .error f
          | .ok registered' => registerLoop e agg measures tagKeys (i + 1) rest registered'

/-- Go `RegisterContainerViews`: gauge views with `view.Count()`, then time
views with `view.Distribution()`. -/
def RegisterContainerViews (e : Engine) (containerGaugeKeys : List String)
    (containerGaugeMeasures : List (Option Int64Measure)) (containerTimeKeys : List String)
    (containerTimeMeasures : List (Option Int64Measure)) (tagKeys : List String)
    (registered : List View) : Except Fault (List View) :=
  match registerLoop e .count containerGaugeMeasures tagKeys 0 containerGaugeKeys registered with
  | .error f => .error f
  | .ok registered' =>
    registerLoop e (.distribution []) containerTimeMeasures tagKeys 0 containerTimeKeys registered'

/-- The view that `createView` builds from a measure when every tag key is
accepted. -/
def builtView (agg : Aggregation) (tagKeys : List String) (m : Int64Measure) : View :=
  { name := m.name, description := m.description, measure := m,
    tagKeys := tagKeys.map TagKey.mk, aggregation := agg }

/-- The instrument `m` is the one the registry returns for its name. -/
def Canonical (reg : Registry) (m : Int64Measure) : Prop :=
  reg.find? (fun x => x.name = m.name) = some m

/-- The bucket boundaries of the two latency views in `RegisterLBAgentViews`. -/
def latencyBounds : List Int :=
  [1, 10, 50, 100, 250, 500, 1000, 10000, 60000, 120000]

/-- The bucket boundaries of the retry view in `RegisterLBAgentViews`. -/
def retryBounds : List Int :=
  [0, 1, 2, 3, 4, 5, 6, 7, 8, 9]

/-- Go `RegisterLBAgentViews`. -/
def RegisterLBAgentViews (e : Engine) (tagKeys : List String) (registered : List View) :
    Except Fault (List View) := do
  let v1 ← createView e (some runnerSchedLatencyMeasure) (.distribution latencyBounds) tagKeys
  let v2 ← createView e (some runnerExecLatencyMeasure) (.distribution latencyBounds) tagKeys
  let v3 ← createView e (some perInstanceRetryMeasure) (.distribution retryBounds) tagKeys
  viewRegister e registered [v1, v2, v3]

/-- Go `RegisterAgentViews`. -/
def RegisterAgentViews (e : Engine) (tagKeys : List String) (registered : List View) :
    Except Fault (List View) := do
  let v1 ← createView e (some queuedMeasure) .sum tagKeys
  let v2 ← createView e (some callsMeasure) .sum tagKeys
  let v3 ← createView e (some runningMeasure) .sum tagKeys
  let v4 ← createView e (some completedMeasure) .sum tagKeys
  let v5 ← createView e (some failedMeasure) .sum tagKeys
  let v6 ← createView e (some timedoutMeasure) .sum tagKeys
  let v7 ← createView e (some errorsMeasure) .sum tagKeys
  let v8 ← createView e (some serverBusyMeasure) .sum tagKeys
  viewRegister e registered [v1, v2, v3, v4, v5, v6, v7, v8]

/-- Modelled from the spec: what a registered view exposes for the measurements
received so far: the running sum for `Sum`, the number of measurements for
`Count` and for a distribution (its total count). -/
def viewValue (v : View) (log : Recorded) : Int :=
  match v.aggregation with
  | .sum => sumData v.measure log
  | .count => countData v.measure log
  | .distribution _ => countData v.measure log

/-- Modelled from the spec: `EnterState` (+1) and `ExitState` (-1) of the
container recorder, which is not in this file: each delta is recorded into the
gauge instrument of the state. -/
def recordDeltas (m : Int64Measure) (log : Recorded) (deltas : List Int) : Recorded :=
  deltas.foldl (fun l d => statsRecord l (m.M d)) log

/-- The engine whose name checks accept every tag key and every view. -/
def acceptAll : Engine :=
  { keyOk := fun _ => true, viewOk := fun _ => true }

/-- The prefixes of the well-formed call paths. -/
def pathPrefixes : List (List Op) :=
  [[], [.enqueue], [.enqueue, .dequeue], [.enqueue, .dequeueAndFail],
   [.enqueue, .dequeueAndStart], [.enqueue, .dequeueAndStart, .complete],
   [.enqueue, .dequeueAndStart, .failed]]

/-! ## Sums over the recording log -/

theorem samplesOf_append (m : Int64Measure) (a b : Recorded) :
    samplesOf m (a ++ b) = samplesOf m a ++ samplesOf m b := by
  simp [samplesOf]

theorem sumData_append (m : Int64Measure) (a b : Recorded) :
    sumData m (a ++ b) = sumData m a + sumData m b := by
  simp [sumData, samplesOf_append]

theorem step_eq_append (log : Recorded) (op : Op) : step log op = log ++ step [] op := by
  cases op <;>
    simp [step, statsEnqueue, statsDequeue, statsDequeueAndStart, statsComplete, statsFailed,
      statsDequeueAndFail, statsTimedout, statsErrors, statsTooBusy, statsRecord]

theorem sumData_step (m : Int64Measure) (log : Recorded) (op : Op) :
    sumData m (step log op) = sumData m log + sumData m (step [] op) := by
  rw [step_eq_append, sumData_append]

theorem sumData_run (m : Int64Measure) (ops : List Op) :
    ∀ log : Recorded,
      sumData m (run log ops) = sumData m log + (ops.map (fun op => sumData m (step [] op))).sum := by
  induction ops with
  | nil => intro log; simp [run]
  | cons op rest ih =>
    intro log
    have h := ih (step log op)
    simp only [run, List.foldl_cons, List.map_cons, List.sum_cons] at h ⊢
    rw [h, sumData_step]; ring

/-- Removing every occurrence of `x` from a list changes the sum of `g` over it
by the number of occurrences times `g x`. -/
theorem sum_map_filter_ne (g : Op → Int) (x : Op) (ops : List Op) :
    (ops.map g).sum = ((ops.filter (fun op => op ≠ x)).map g).sum + (ops.count x : Int) * g x := by
  induction ops with
  | nil => simp
  | cons op rest ih =>
    by_cases h : op = x
    · subst h
      simp [List.count_cons_self, ih]; ring
    · have h1 : (op == x) = false := by simpa using h
      simp [List.filter_cons, h, List.count_cons, h1, ih]; ring

/-! ## What one recorder call adds to each total -/

theorem delta_queued (op : Op) :
    sumData queuedMeasure (step [] op) =
      match op with
      | .enqueue => 1 | .dequeue => -1 | .dequeueAndStart => -1 | .dequeueAndFail => -1
      | _ => 0 := by
  cases op <;> decide

theorem delta_calls (op : Op) :
    sumData callsMeasure (step [] op) = match op with | .enqueue => 1 | _ => 0 := by
  cases op <;> decide

theorem delta_running (op : Op) :
    sumData runningMeasure (step [] op) =
      match op with
      | .dequeueAndStart => 1 | .complete => -1 | .failed => -1
      | _ => 0 := by
  cases op <;> decide

theorem delta_completed (op : Op) :
    sumData completedMeasure (step [] op) = match op with | .complete => 1 | _ => 0 := by
  cases op <;> decide

theorem delta_failed (op : Op) :
    sumData failedMeasure (step [] op) =
      match op with | .failed => 1 | .dequeueAndFail => 1 | _ => 0 := by
  cases op <;> decide

theorem delta_timeouts (op : Op) :
    sumData timedoutMeasure (step [] op) = match op with | .timedout => 1 | _ => 0 := by
  cases op <;> decide

theorem delta_errors (op : Op) :
    sumData errorsMeasure (step [] op) = match op with | .errors => 1 | _ => 0 := by
  cases op <;> decide

theorem delta_serverBusy (op : Op) :
    sumData serverBusyMeasure (step [] op) = match op with | .tooBusy => 1 | _ => 0 := by
  cases op <;> decide

/-- Over any sequence of recorder calls, the calls delta is the sum of the
queued, running, completed and failed deltas plus one per `statsDequeue`. -/
theorem lifecycle_balance (ops : List Op) :
    (ops.map (fun op => sumData callsMeasure (step [] op))).sum =
      (ops.map (fun op => sumData queuedMeasure (step [] op))).sum +
      (ops.map (fun op => sumData runningMeasure (step [] op))).sum +
      (ops.map (fun op => sumData completedMeasure (step [] op))).sum +
      (ops.map (fun op => sumData failedMeasure (step [] op))).sum +
      (ops.count Op.dequeue : Int) := by
  induction ops with
  | nil => simp
  | cons op rest ih =>
    simp only [List.map_cons, List.sum_cons, List.count_cons]
    rw [ih]
    generalize (rest.map (fun op => sumData queuedMeasure (step [] op))).sum = a
    generalize (rest.map (fun op => sumData runningMeasure (step [] op))).sum = b
    generalize (rest.map (fun op => sumData completedMeasure (step [] op))).sum = c
    generalize (rest.map (fun op => sumData failedMeasure (step [] op))).sum = d
    cases op <;>
      simp [delta_calls, delta_queued, delta_running, delta_completed, delta_failed] <;> ring

/-! ## Per-call decomposition of a trace -/

theorem callOps_cons (c : Nat) (e : Nat × Op) (t : Trace) :
    callOps c (e :: t) = if e.1 = c then e.2 :: callOps c t else callOps c t := by
  by_cases h : e.1 = c <;> simp [callOps, List.filter_cons, h]

/-- The sum of `g` over a trace is the sum, over the calls, of the sum of `g`
over the operations of each call. -/
theorem sum_trace_eq_sum_calls (g : Op → Int) (S : Finset Nat) (t : Trace)
    (hS : ∀ e ∈ t, e.1 ∈ S) :
    (t.map (fun e => g e.2)).sum = ∑ c in S, ((callOps c t).map g).sum := by
  induction t with
  | nil => simp [callOps]
  | cons e rest ih =>
    have hrest : ∀ x ∈ rest, x.1 ∈ S := fun x hx => hS x (List.mem_cons_of_mem _ hx)
    have he : e.1 ∈ S := hS e (List.mem_cons_self _ _)
    have hsplit : ∀ c, ((callOps c (e :: rest)).map g).sum =
        (if e.1 = c then g e.2 else 0) + ((callOps c rest).map g).sum := by
      intro c
      rw [callOps_cons]
      by_cases h : e.1 = c <;> simp [h]
    simp only [List.map_cons, List.sum_cons, ih hrest, hsplit, Finset.sum_add_distrib,
      Finset.sum_ite_eq, he, if_true]

theorem sumData_runTrace (m : Int64Measure) (S : Finset Nat) (t : Trace)
    (hS : ∀ e ∈ t, e.1 ∈ S) :
    sumData m (runTrace [] t) =
      ∑ c in S, ((callOps c t).map (fun op => sumData m (step [] op))).sum := by
  rw [runTrace, sumData_run, ← sum_trace_eq_sum_calls _ S t hS]
  simp [sumData, samplesOf, List.map_map, Function.comp_def]

/-! ## Well-formed calls -/

theorem mem_pathPrefixes (l : List Op) (h : ∃ path ∈ callPaths, l <+: path) :
    l ∈ pathPrefixes := by
  obtain ⟨path, hp, hl⟩ := h
  rw [← List.mem_inits] at hl
  simp only [callPaths, List.mem_cons, List.mem_singleton, List.not_mem_nil, or_false] at hp
  rcases hp with rfl | rfl | rfl | rfl <;>
    simp [List.inits, pathPrefixes] at hl ⊢ <;> tauto

theorem sum_map_filter_lifecycle (g : Op → Int) (hg : ∀ op, isLifecycle op = false → g op = 0)
    (l : List Op) : ((l.filter isLifecycle).map g).sum = (l.map g).sum := by
  induction l with
  | nil => simp
  | cons op rest ih =>
    cases h : isLifecycle op
    · simp [List.filter_cons, h, ih, hg op h]
    · simp [List.filter_cons, h, ih]

theorem mem_filter_lifecycle (op : Op) (h : isLifecycle op = true) (l : List Op) :
    op ∈ l.filter isLifecycle ↔ op ∈ l := by
  simp [List.mem_filter, h]

theorem wellFormed_initial (t p : Trace) (hwf : WellFormed t) (hp : p <+: t) (c : Nat)
    (hc : c ∈ callIds p) : lifecycleOps c p ∈ pathPrefixes := by
  have hc1 : c ∈ p.map Prod.fst := by simpa [callIds] using hc
  have hc2 : c ∈ t.map Prod.fst := (hp.map Prod.fst).subset hc1
  obtain ⟨path, hpath, hl⟩ := hwf c hc2
  have hpre : lifecycleOps c p <+: lifecycleOps c t := by
    unfold lifecycleOps callOps
    exact ((hp.filter _).map _).filter _
  exact mem_pathPrefixes _ ⟨path, hpath, hpre.trans hl⟩


theorem queued_of_path_start (l : List Op) (h : l ∈ pathPrefixes) :
    (l.map (fun op => sumData queuedMeasure (step [] op))).sum =
      if Op.enqueue ∈ l ∧ Op.dequeue ∉ l ∧ Op.dequeueAndFail ∉ l ∧ Op.dequeueAndStart ∉ l
      then 1 else 0 := by
  simp only [pathPrefixes, List.mem_cons, List.mem_singleton, List.not_mem_nil, or_false] at h
  rcases h with rfl | rfl | rfl | rfl | rfl | rfl | rfl <;> decide

theorem running_of_path_start (l : List Op) (h : l ∈ pathPrefixes) :
    (l.map (fun op => sumData runningMeasure (step [] op))).sum =
      if Op.dequeueAndStart ∈ l ∧ Op.complete ∉ l ∧ Op.failed ∉ l then 1 else 0 := by
  simp only [pathPrefixes, List.mem_cons, List.mem_singleton, List.not_mem_nil, or_false] at h
  rcases h with rfl | rfl | rfl | rfl | rfl | rfl | rfl <;> decide

theorem inflight_of_path_start (l : List Op) (h : l ∈ pathPrefixes) :
    (l.map (fun op => sumData queuedMeasure (step [] op))).sum +
        (l.map (fun op => sumData runningMeasure (step [] op))).sum =
      if Op.enqueue ∈ l ∧ Op.dequeue ∉ l ∧ Op.dequeueAndFail ∉ l ∧
        Op.complete ∉ l ∧ Op.failed ∉ l
      then 1 else 0 := by
  simp only [pathPrefixes, List.mem_cons, List.mem_singleton, List.not_mem_nil, or_false] at h
  rcases h with rfl | rfl | rfl | rfl | rfl | rfl | rfl <;> decide

theorem queued_lifecycle_only (op : Op) (h : isLifecycle op = false) :
    sumData queuedMeasure (step [] op) = 0 := by
  cases op <;> first | rfl | cases h

theorem running_lifecycle_only (op : Op) (h : isLifecycle op = false) :
    sumData runningMeasure (step [] op) = 0 := by
  cases op <;> first | rfl | cases h

/-- What the operations of one call add to queued, when its lifecycle
operations are a prefix of a well-formed path. -/
theorem queued_of_call (c : Nat) (p : Trace) (h : lifecycleOps c p ∈ pathPrefixes) :
    ((callOps c p).map (fun op => sumData queuedMeasure (step [] op))).sum =
      if InQueue p c then 1 else 0 := by
  have h1 := queued_of_path_start _ h
  rw [lifecycleOps, sum_map_filter_lifecycle _ queued_lifecycle_only] at h1
  simp only [mem_filter_lifecycle Op.enqueue rfl, mem_filter_lifecycle Op.dequeue rfl,
    mem_filter_lifecycle Op.dequeueAndFail rfl, mem_filter_lifecycle Op.dequeueAndStart rfl] at h1
  exact h1

theorem running_of_call (c : Nat) (p : Trace) (h : lifecycleOps c p ∈ pathPrefixes) :
    ((callOps c p).map (fun op => sumData runningMeasure (step [] op))).sum =
      if IsRunning p c then 1 else 0 := by
  have h1 := running_of_path_start _ h
  rw [lifecycleOps, sum_map_filter_lifecycle _ running_lifecycle_only] at h1
  simp only [mem_filter_lifecycle Op.dequeueAndStart rfl, mem_filter_lifecycle Op.complete rfl,
    mem_filter_lifecycle Op.failed rfl] at h1
  exact h1

theorem inflight_of_call (c : Nat) (p : Trace) (h : lifecycleOps c p ∈ pathPrefixes) :
    ((callOps c p).map (fun op => sumData queuedMeasure (step [] op))).sum +
        ((callOps c p).map (fun op => sumData runningMeasure (step [] op))).sum =
      if InFlight p c then 1 else 0 := by
  have h1 := inflight_of_path_start _ h
  rw [lifecycleOps, sum_map_filter_lifecycle _ queued_lifecycle_only,
    sum_map_filter_lifecycle _ running_lifecycle_only] at h1
  simp only [mem_filter_lifecycle Op.enqueue rfl, mem_filter_lifecycle Op.dequeue rfl,
    mem_filter_lifecycle Op.dequeueAndFail rfl, mem_filter_lifecycle Op.complete rfl,
    mem_filter_lifecycle Op.failed rfl] at h1
  exact h1

/-! ## The registered views -/

/-- With an accepting engine `RegisterAgentViews` registers the eight call
counters, each as a `Sum` view, so the value of each view is the total above. -/
theorem registerAgentViews_sum (log : Recorded) :
    ∃ vs : List View, RegisterAgentViews acceptAll [] [] = .ok vs ∧
      vs.map (fun v => (v.name, v.aggregation)) =
        [("queued", Aggregation.sum), ("calls", Aggregation.sum), ("running", Aggregation.sum),
         ("completed", Aggregation.sum), ("failed", Aggregation.sum),
         ("timeouts", Aggregation.sum), ("errors", Aggregation.sum),
         ("server_busy", Aggregation.sum)] ∧
      vs.map (fun v => viewValue v log) =
        [queued log, calls log, running log, completed log, failed log, timeouts log,
         errors log, serverBusy log] :=
  ⟨_, rfl, rfl, rfl⟩

/-- With an accepting engine `RegisterLBAgentViews` registers the two latency
measures with the latency boundaries and the retry measure with the boundaries
0 to 9. -/
theorem registerLBAgentViews_distributions :
    ∃ vs : List View, RegisterLBAgentViews acceptAll [] [] = .ok vs ∧
      vs.map (fun v => (v.measure, v.aggregation)) =
        [(runnerSchedLatencyMeasure, Aggregation.distribution latencyBounds),
         (runnerExecLatencyMeasure, Aggregation.distribution latencyBounds),
         (perInstanceRetryMeasure, Aggregation.distribution retryBounds)] :=
  ⟨_, rfl, rfl⟩

/-! ## Call lifecycle totals -/

/-- C1: for every `n` and every interleaving of `n` call paths
`statsEnqueue`, `statsDequeueAndStart`, `statsComplete` (the operations of each
call in that order, interleaved arbitrarily with those of the other calls),
starting from all-zero totals, the final totals are queued = 0, running = 0,
completed = n and calls = n; the failure and signal totals stay 0. -/
theorem interleaved_complete_paths_totals (n : Nat) (t : Trace)
    (hids : ∀ e ∈ t, e.1 < n)
    (hpath : ∀ c, c < n → callOps c t = [Op.enqueue, Op.dequeueAndStart, Op.complete]) :
    queued (runTrace [] t) = 0 ∧ running (runTrace [] t) = 0 ∧
      completed (runTrace [] t) = n ∧ calls (runTrace [] t) = n ∧
      failed (runTrace [] t) = 0 ∧ timeouts (runTrace [] t) = 0 ∧
      errors (runTrace [] t) = 0 ∧ serverBusy (runTrace [] t) = 0 := by
  have hS : ∀ e ∈ t, e.1 ∈ Finset.range n := fun e he => Finset.mem_range.mpr (hids e he)
  have key : ∀ m : Int64Measure, sumData m (runTrace [] t) =
      ∑ _c in Finset.range n,
        (([Op.enqueue, Op.dequeueAndStart, Op.complete] : List Op).map
          (fun op => sumData m (step [] op))).sum := by
    intro m
    rw [sumData_runTrace m (Finset.range n) t hS]
    refine Finset.sum_congr rfl (fun c hc => ?_)
    rw [hpath c (Finset.mem_range.mp hc)]
  refine ⟨?_, ?_, ?_, ?_, ?_, ?_, ?_, ?_⟩
  · rw [queued, key]; simp [delta_queued]
  · rw [running, key]; simp [delta_running]
  · rw [completed, key]; simp [delta_completed]
  · rw [calls, key]; simp [delta_calls]
  · rw [failed, key]; simp [delta_failed]
  · rw [timeouts, key]; simp [delta_timeouts]
  · rw [errors, key]; simp [delta_errors]
  · rw [serverBusy, key]; simp [delta_serverBusy]

/-- C1 at n = 3, with the three calls interleaved. -/
theorem interleaved_complete_paths_totals_witness :
    queued (runTrace [] [(0, Op.enqueue), (1, Op.enqueue), (0, Op.dequeueAndStart),
        (2, Op.enqueue), (1, Op.dequeueAndStart), (0, Op.complete), (2, Op.dequeueAndStart),
        (2, Op.complete), (1, Op.complete)]) = 0 ∧
    running (runTrace [] [(0, Op.enqueue), (1, Op.enqueue), (0, Op.dequeueAndStart),
        (2, Op.enqueue), (1, Op.dequeueAndStart), (0, Op.complete), (2, Op.dequeueAndStart),
        (2, Op.complete), (1, Op.complete)]) = 0 ∧
    completed (runTrace [] [(0, Op.enqueue), (1, Op.enqueue), (0, Op.dequeueAndStart),
        (2, Op.enqueue), (1, Op.dequeueAndStart), (0, Op.complete), (2, Op.dequeueAndStart),
        (2, Op.complete), (1, Op.complete)]) = 3 ∧
    calls (runTrace [] [(0, Op.enqueue), (1, Op.enqueue), (0, Op.dequeueAndStart),
        (2, Op.enqueue), (1, Op.dequeueAndStart), (0, Op.complete), (2, Op.dequeueAndStart),
        (2, Op.complete), (1, Op.complete)]) = 3 :=
  have h := interleaved_complete_paths_totals 3
    [(0, Op.enqueue), (1, Op.enqueue), (0, Op.dequeueAndStart),
      (2, Op.enqueue), (1, Op.dequeueAndStart), (0, Op.complete), (2, Op.dequeueAndStart),
      (2, Op.complete), (1, Op.complete)]
    (by decide) (by decide)
  ⟨h.1, h.2.1, h.2.2.1, h.2.2.2.1⟩

/-- C2: in every trace that interleaves prefixes of well-formed call paths, with
timeout, error and too-busy events anywhere, at every point of the trace queued
is the number of calls enqueued and not yet dequeued, running is the number of
calls started and not yet completed or failed, queued + running is the number
of calls enqueued that have not reached their terminating event, neither total
is negative, and `statsTimedout`, `statsErrors` and `statsTooBusy` leave queued
and running unchanged. -/
theorem queued_running_invariant (t : Trace) (hwf : WellFormed t) (p : Trace) (hp : p <+: t) :
    queued (runTrace [] p) = (((callIds p).filter (InQueue p)).card : Int) ∧
    running (runTrace [] p) = (((callIds p).filter (IsRunning p)).card : Int) ∧
    queued (runTrace [] p) + running (runTrace [] p) =
      (((callIds p).filter (InFlight p)).card : Int) ∧
    0 ≤ queued (runTrace [] p) ∧ 0 ≤ running (runTrace [] p) ∧
    (∀ log : Recorded,
      queued (statsTimedout log) = queued log ∧ running (statsTimedout log) = running log ∧
      queued (statsErrors log) = queued log ∧ running (statsErrors log) = running log ∧
      queued (statsTooBusy log) = queued log ∧ running (statsTooBusy log) = running log) := by
  have hS : ∀ e ∈ p, e.1 ∈ callIds p := by
    intro e he
    simp only [callIds, List.mem_toFinset]
    exact List.mem_map_of_mem Prod.fst he
  have hq : queued (runTrace [] p) = (((callIds p).filter (InQueue p)).card : Int) := by
    rw [queued, sumData_runTrace _ (callIds p) p hS,
      Finset.sum_congr rfl (fun c hc => queued_of_call c p (wellFormed_initial t p hwf hp c hc)),
      Finset.sum_boole]
  have hr : running (runTrace [] p) = (((callIds p).filter (IsRunning p)).card : Int) := by
    rw [running, sumData_runTrace _ (callIds p) p hS,
      Finset.sum_congr rfl (fun c hc => running_of_call c p (wellFormed_initial t p hwf hp c hc)),
      Finset.sum_boole]
  have hqr : queued (runTrace [] p) + running (runTrace [] p) =
      (((callIds p).filter (InFlight p)).card : Int) := by
    rw [queued, running, sumData_runTrace _ (callIds p) p hS,
      sumData_runTrace _ (callIds p) p hS, ← Finset.sum_add_distrib,
      Finset.sum_congr rfl (fun c hc => inflight_of_call c p (wellFormed_initial t p hwf hp c hc)),
      Finset.sum_boole]
  refine ⟨hq, hr, hqr, ?_, ?_, ?_⟩
  · rw [hq]; exact Int.natCast_nonneg _
  · rw [hr]; exact Int.natCast_nonneg _
  · intro log
    have h : ∀ (m : Int64Measure) (op : Op), sumData m (step log op) =
        sumData m log + sumData m (step [] op) := fun m op => sumData_step m log op
    refine ⟨?_, ?_, ?_, ?_, ?_, ?_⟩
    · exact (h queuedMeasure Op.timedout).trans (by rw [delta_queued]; simp [queued])
    · exact (h runningMeasure Op.timedout).trans (by rw [delta_running]; simp [running])
    · exact (h queuedMeasure Op.errors).trans (by rw [delta_queued]; simp [queued])
    · exact (h runningMeasure Op.errors).trans (by rw [delta_running]; simp [running])
    · exact (h queuedMeasure Op.tooBusy).trans (by rw [delta_queued]; simp [queued])
    · exact (h runningMeasure Op.tooBusy).trans (by rw [delta_running]; simp [running])

/-- C2 on a trace of three calls with a timeout and an error interleaved, at
the point after its first five events. -/
theorem queued_running_invariant_witness :
    WellFormed [(0, Op.enqueue), (1, Op.enqueue), (0, Op.timedout), (0, Op.dequeueAndStart),
      (2, Op.enqueue), (1, Op.dequeueAndFail), (7, Op.errors), (0, Op.failed)] ∧
    queued (runTrace [] [(0, Op.enqueue), (1, Op.enqueue), (0, Op.timedout),
      (0, Op.dequeueAndStart), (2, Op.enqueue)]) = 2 ∧
    running (runTrace [] [(0, Op.enqueue), (1, Op.enqueue), (0, Op.timedout),
      (0, Op.dequeueAndStart), (2, Op.enqueue)]) = 1 ∧
    ((callIds [(0, Op.enqueue), (1, Op.enqueue), (0, Op.timedout),
      (0, Op.dequeueAndStart), (2, Op.enqueue)]).filter
        (InFlight [(0, Op.enqueue), (1, Op.enqueue), (0, Op.timedout),
          (0, Op.dequeueAndStart), (2, Op.enqueue)])).card = 3 :=
  have h := queued_running_invariant
    [(0, Op.enqueue), (1, Op.enqueue), (0, Op.timedout), (0, Op.dequeueAndStart),
      (2, Op.enqueue), (1, Op.dequeueAndFail), (7, Op.errors), (0, Op.failed)]
    (by decide)
    [(0, Op.enqueue), (1, Op.enqueue), (0, Op.timedout), (0, Op.dequeueAndStart),
      (2, Op.enqueue)]
    (by decide)
  ⟨by decide, h.1.trans (by decide), h.2.1.trans (by decide), by decide⟩

/-- C3: from every state of the totals, `statsDequeueAndFail` lowers queued by
exactly 1, raises failed by exactly 1 and leaves running, calls, completed,
timeouts, errors and server_busy unchanged; and in every sequence of recorder
calls, the `k` occurrences of `statsDequeueAndFail` together contribute `-k` to
queued, `+k` to failed and nothing to any other total, compared with the same
sequence without them. -/
theorem statsDequeueAndFail_effect :
    (∀ log : Recorded,
      queued (statsDequeueAndFail log) = queued log - 1 ∧
      failed (statsDequeueAndFail log) = failed log + 1 ∧
      running (statsDequeueAndFail log) = running log ∧
      calls (statsDequeueAndFail log) = calls log ∧
      completed (statsDequeueAndFail log) = completed log ∧
      timeouts (statsDequeueAndFail log) = timeouts log ∧
      errors (statsDequeueAndFail log) = errors log ∧
      serverBusy (statsDequeueAndFail log) = serverBusy log) ∧
    (∀ (log : Recorded) (ops : List Op),
      queued (run log ops) =
        queued (run log (ops.filter (fun op => op ≠ Op.dequeueAndFail)))
          - (ops.count Op.dequeueAndFail : Int) ∧
      failed (run log ops) =
        failed (run log (ops.filter (fun op => op ≠ Op.dequeueAndFail)))
          + (ops.count Op.dequeueAndFail : Int) ∧
      running (run log ops) =
        running (run log (ops.filter (fun op => op ≠ Op.dequeueAndFail))) ∧
      calls (run log ops) =
        calls (run log (ops.filter (fun op => op ≠ Op.dequeueAndFail))) ∧
      completed (run log ops) =
        completed (run log (ops.filter (fun op => op ≠ Op.dequeueAndFail))) ∧
      timeouts (run log ops) =
        timeouts (run log (ops.filter (fun op => op ≠ Op.dequeueAndFail))) ∧
      errors (run log ops) =
        errors (run log (ops.filter (fun op => op ≠ Op.dequeueAndFail))) ∧
      serverBusy (run log ops) =
        serverBusy (run log (ops.filter (fun op => op ≠ Op.dequeueAndFail)))) := by
  constructor
  · intro log
    have h : ∀ m : Int64Measure, sumData m (statsDequeueAndFail log) =
        sumData m log + sumData m (step [] Op.dequeueAndFail) :=
      fun m => sumData_step m log Op.dequeueAndFail
    refine ⟨?_, ?_, ?_, ?_, ?_, ?_, ?_, ?_⟩
    · rw [queued, h, delta_queued]; rfl
    · rw [failed, h, delta_failed]; rfl
    · rw [running, h, delta_running]; simp [running]
    · rw [calls, h, delta_calls]; simp [calls]
    · rw [completed, h, delta_completed]; simp [completed]
    · rw [timeouts, h, delta_timeouts]; simp [timeouts]
    · rw [errors, h, delta_errors]; simp [errors]
    · rw [serverBusy, h, delta_serverBusy]; simp [serverBusy]
  · intro log ops
    have h : ∀ m : Int64Measure, sumData m (run log ops) =
        sumData m (run log (ops.filter (fun op => op ≠ Op.dequeueAndFail))) +
          (ops.count Op.dequeueAndFail : Int) * sumData m (step [] Op.dequeueAndFail) := by
      intro m
      rw [sumData_run, sumData_run,
        sum_map_filter_ne (fun op => sumData m (step [] op)) Op.dequeueAndFail ops]
      ring
    refine ⟨?_, ?_, ?_, ?_, ?_, ?_, ?_, ?_⟩
    · rw [queued, h, delta_queued]; simp [queued]; ring
    · rw [failed, h, delta_failed]; simp [failed]
    · rw [running, h, delta_running]; simp [running]
    · rw [calls, h, delta_calls]; simp [calls]
    · rw [completed, h, delta_completed]; simp [completed]
    · rw [timeouts, h, delta_timeouts]; simp [timeouts]
    · rw [errors, h, delta_errors]; simp [errors]
    · rw [serverBusy, h, delta_serverBusy]; simp [serverBusy]

/-- C10, as the code has it: for every sequence of recorder calls starting from
all-zero totals and ending with queued = 0 and running = 0, the calls total is
the completed total plus the failed total plus the number of `statsDequeue`
calls in the sequence. -/
theorem calls_eq_completed_failed_dequeued (ops : List Op)
    (hq : queued (run [] ops) = 0) (hr : running (run [] ops) = 0) :
    calls (run [] ops) =
      completed (run [] ops) + failed (run [] ops) + (ops.count Op.dequeue : Int) := by
  have hb := lifecycle_balance ops
  have h0 : ∀ m : Int64Measure, sumData m ([] : Recorded) = 0 := fun m => rfl
  simp only [queued, running, calls, completed, failed, sumData_run, h0, zero_add] at hq hr ⊢
  rw [hb, hq, hr]; ring

/-- C10 amended, on enqueue, dequeue, enqueue, start, complete. -/
theorem calls_eq_completed_failed_dequeued_witness :
    calls (run [] [Op.enqueue, Op.dequeue, Op.enqueue, Op.dequeueAndStart, Op.complete]) =
      completed (run [] [Op.enqueue, Op.dequeue, Op.enqueue, Op.dequeueAndStart, Op.complete]) +
      failed (run [] [Op.enqueue, Op.dequeue, Op.enqueue, Op.dequeueAndStart, Op.complete]) +
      (([Op.enqueue, Op.dequeue, Op.enqueue, Op.dequeueAndStart, Op.complete] : List Op).count
        Op.dequeue : Int) :=
  calls_eq_completed_failed_dequeued
    [Op.enqueue, Op.dequeue, Op.enqueue, Op.dequeueAndStart, Op.complete] (by decide) (by decide)

/-- C10 as stated fails: after `statsEnqueue` then `statsDequeue`, queued and
running are 0 and calls is 1, while completed + failed is 0. -/
theorem calls_ne_completed_add_failed :
    queued (run [] [Op.enqueue, Op.dequeue]) = 0 ∧
    running (run [] [Op.enqueue, Op.dequeue]) = 0 ∧
    calls (run [] [Op.enqueue, Op.dequeue]) = 1 ∧
    completed (run [] [Op.enqueue, Op.dequeue]) + failed (run [] [Op.enqueue, Op.dequeue]) = 0 ∧
    calls (run [] [Op.enqueue, Op.dequeue]) ≠
      completed (run [] [Op.enqueue, Op.dequeue]) + failed (run [] [Op.enqueue, Op.dequeue]) := by
  decide

/-- C4: `statsNoRetriesPerCall` takes no retry count; each call adds exactly one
sample to the retry measure and that sample is the constant 1, so an invocation
without retry does not record the sample 0. -/
theorem statsNoRetriesPerCall_records_one :
    (∀ log : Recorded,
      samplesOf perInstanceRetryMeasure (statsNoRetriesPerCall log) =
        samplesOf perInstanceRetryMeasure log ++ [1]) ∧
    samplesOf perInstanceRetryMeasure (statsNoRetriesPerCall []) ≠ [0] ∧
    countPerBucket retryBounds (samplesOf perInstanceRetryMeasure (statsNoRetriesPerCall [])) =
      [0, 0, 1, 0, 0, 0, 0, 0, 0, 0, 0] := by
  refine ⟨fun log => ?_, by decide, by decide⟩
  simp [statsNoRetriesPerCall, statsRecord, samplesOf_append, samplesOf, Int64Measure.M]

/-! ## Latency distributions -/

theorem bucketIndex_le (bounds : List Int) (v : Int) : bucketIndex bounds v ≤ bounds.length := by
  induction bounds with
  | nil => simp [bucketIndex]
  | cons b bs ih =>
    simp only [bucketIndex, List.length_cons]
    split <;> omega

theorem bucketIndex_cons_lt (b : Int) (bs : List Int) (v : Int) (h : v < b) :
    bucketIndex (b :: bs) v = 0 := by
  simp [bucketIndex, h]

theorem bucketIndex_cons_ge (b : Int) (bs : List Int) (v : Int) (h : b ≤ v) :
    bucketIndex (b :: bs) v = bucketIndex bs v + 1 := by
  have h1 : ¬ v < b := by omega
  simp [bucketIndex, h1]

theorem sum_indicator_range (j k : Nat) :
    ((List.range k).map (fun i => if j = i then 1 else 0)).sum = if j < k then 1 else 0 := by
  induction k with
  | zero => simp
  | succ k ih =>
    rw [List.sum_range_succ, ih]
    by_cases h1 : j < k
    · have h2 : j ≠ k := by omega
      have h3 : j < k + 1 := by omega
      simp [h1, h2, h3]
    · by_cases h2 : j = k
      · subst h2; simp
      · have h3 : ¬ j < k + 1 := by omega
        simp [h1, h2, h3]

/-- Every sample is counted in exactly one of the buckets `0 .. k-1`, so the
bucket counts add up to the number of samples. -/
theorem sum_bucket_counts (f : Int → Nat) (k : Nat) (hf : ∀ v, f v < k) (samples : List Int) :
    ((List.range k).map (fun i => samples.countP (fun v => f v = i))).sum = samples.length := by
  induction samples with
  | nil => simp
  | cons x rest ih =>
    simp only [List.countP_cons, decide_eq_true_eq, List.length_cons]
    rw [List.sum_map_add, ih, sum_indicator_range, if_pos (hf x)]

theorem tdiv_millisecond_nonneg (d : Int) (h : 0 ≤ d) :
    Int.tdiv d timeMillisecond * 1000000 ≤ d ∧ d < (Int.tdiv d timeMillisecond + 1) * 1000000 := by
  rw [timeMillisecond, Int.tdiv_eq_ediv h (by decide)]
  omega

theorem tdiv_millisecond_nonpos (d : Int) (h : d ≤ 0) :
    d ≤ Int.tdiv d timeMillisecond * 1000000 ∧ (Int.tdiv d timeMillisecond - 1) * 1000000 < d := by
  have h1 : Int.tdiv d timeMillisecond = -(Int.tdiv (-d) 1000000) := by
    rw [timeMillisecond, Int.neg_tdiv, neg_neg]
  rw [h1, Int.tdiv_eq_ediv (by omega) (by decide)]
  omega

/-- C5: for every duration `d` in nanoseconds, `statsLBAgentRunnerSchedLatency`
and `statsLBAgentRunnerExecLatency` each add exactly one sample `v` to their
measure, `v` being `d / 1000000` truncated toward zero; with the boundaries
1, 10, 50, 100, 250, 500, 1000, 10000, 60000, 120000 every sample is counted in
exactly one of the 11 buckets, the half-open range of consecutive boundaries
that contains it (below 1 the first, from 120000 on the last), so the bucket
counts of N samples add up to N; and 5ms, 75ms and 1500ms land one each in
[1,10), [50,100) and [1000,10000). -/
theorem latency_samples_bucketed :
    (∀ (log : Recorded) (d : Int), ∃ v : Int,
      samplesOf runnerSchedLatencyMeasure (statsLBAgentRunnerSchedLatency log d) =
        samplesOf runnerSchedLatencyMeasure log ++ [v] ∧
      samplesOf runnerExecLatencyMeasure (statsLBAgentRunnerExecLatency log d) =
        samplesOf runnerExecLatencyMeasure log ++ [v] ∧
      (0 ≤ d → v * 1000000 ≤ d ∧ d < (v + 1) * 1000000) ∧
      (d ≤ 0 → d ≤ v * 1000000 ∧ (v - 1) * 1000000 < d)) ∧
    (∀ v : Int,
      bucketIndex latencyBounds v < 11 ∧
      countPerBucket latencyBounds [v] =
        (List.range 11).map (fun i => if i = bucketIndex latencyBounds v then 1 else 0) ∧
      (v < 1 → bucketIndex latencyBounds v = 0) ∧
      (1 ≤ v → v < 10 → bucketIndex latencyBounds v = 1) ∧
      (10 ≤ v → v < 50 → bucketIndex latencyBounds v = 2) ∧
      (50 ≤ v → v < 100 → bucketIndex latencyBounds v = 3) ∧
      (100 ≤ v → v < 250 → bucketIndex latencyBounds v = 4) ∧
      (250 ≤ v → v < 500 → bucketIndex latencyBounds v = 5) ∧
      (500 ≤ v → v < 1000 → bucketIndex latencyBounds v = 6) ∧
      (1000 ≤ v → v < 10000 → bucketIndex latencyBounds v = 7) ∧
      (10000 ≤ v → v < 60000 → bucketIndex latencyBounds v = 8) ∧
      (60000 ≤ v → v < 120000 → bucketIndex latencyBounds v = 9) ∧
      (120000 ≤ v → bucketIndex latencyBounds v = 10)) ∧
    (∀ samples : List Int, (countPerBucket latencyBounds samples).sum = samples.length) ∧
    countPerBucket latencyBounds
        (samplesOf runnerSchedLatencyMeasure
          (statsLBAgentRunnerSchedLatency
            (statsLBAgentRunnerSchedLatency (statsLBAgentRunnerSchedLatency [] 5000000) 75000000)
            1500000000)) =
      [0, 1, 0, 1, 0, 0, 0, 1, 0, 0, 0] := by
  refine ⟨?_, ?_, ?_, by decide⟩
  · intro log d
    refine ⟨Int.tdiv d timeMillisecond, ?_, ?_, tdiv_millisecond_nonneg d, tdiv_millisecond_nonpos d⟩
    · simp [statsLBAgentRunnerSchedLatency, statsRecord, samplesOf_append, samplesOf,
        Int64Measure.M]
    · simp [statsLBAgentRunnerExecLatency, statsRecord, samplesOf_append, samplesOf,
        Int64Measure.M]
  · intro v
    have hlt : bucketIndex latencyBounds v < 11 :=
      Nat.lt_succ_of_le (bucketIndex_le latencyBounds v)
    refine ⟨hlt, ?_, ?_⟩
    · simp only [countPerBucket, latencyBounds, List.length_cons, List.length_nil]
      refine List.map_congr_left (fun i _ => ?_)
      by_cases h : bucketIndex [1, 10, 50, 100, 250, 500, 1000, 10000, 60000, 120000] v = i
      · simp [h]
      · have h2 : ¬ i = bucketIndex [1, 10, 50, 100, 250, 500, 1000, 10000, 60000, 120000] v :=
          fun e => h e.symm
        simp [h, h2]
    · unfold latencyBounds
      refine ⟨?_, ?_, ?_, ?_, ?_, ?_, ?_, ?_, ?_, ?_, ?_⟩ <;> intros <;>
        repeat first
          | rw [bucketIndex_cons_lt _ _ _ (by omega)]
          | rw [bucketIndex_cons_ge _ _ _ (by omega)]
          | rfl
  · intro samples
    exact sum_bucket_counts (bucketIndex latencyBounds) 11
      (fun v => Nat.lt_succ_of_le (bucketIndex_le latencyBounds v)) samples

/-! ## The instrument registry -/

theorem makeMeasure_name (reg : Registry) (name desc unit : String) :
    (makeMeasure reg name desc unit).1.name = name := by
  unfold makeMeasure statsInt64
  cases h : reg.find? (fun m => m.name = name) with
  | none => rfl
  | some stored => simpa using List.find?_some h

theorem makeMeasure_stored (reg : Registry) (name desc unit : String) (m : Int64Measure)
    (h : reg.find? (fun x => x.name = name) = some m) :
    makeMeasure reg name desc unit = (m, reg) := by
  simp [makeMeasure, statsInt64, h]

theorem makeMeasure_fresh (reg : Registry) (name desc unit : String)
    (h : ∀ x ∈ reg, x.name ≠ name) :
    makeMeasure reg name desc unit =
      ({ name := name, description := desc, unit := unit },
        reg ++ [{ name := name, description := desc, unit := unit }]) := by
  have hf : reg.find? (fun m => m.name = name) = none := by
    rw [List.find?_eq_none]
    intro x hx
    simpa using h x hx
  simp [makeMeasure, statsInt64, hf]

theorem find_append_of_some (reg extra : Registry) (n : String) (m : Int64Measure)
    (h : reg.find? (fun x => x.name = n) = some m) :
    (reg ++ extra).find? (fun x => x.name = n) = some m := by
  simp [List.find?_append, h]

theorem makeMeasure_canonical (reg : Registry) (name desc unit : String) :
    Canonical (makeMeasure reg name desc unit).2 (makeMeasure reg name desc unit).1 := by
  unfold Canonical
  rw [makeMeasure_name]
  cases h : reg.find? (fun m => m.name = name) with
  | none =>
    simp [makeMeasure, statsInt64, h, List.find?_append]
  | some stored =>
    simp [makeMeasure, statsInt64, h]

theorem makeMeasure_stable (reg : Registry) (name desc unit : String) (m : Int64Measure)
    (h : Canonical reg m) : Canonical (makeMeasure reg name desc unit).2 m := by
  unfold Canonical at h ⊢
  cases hf : reg.find? (fun x => x.name = name) with
  | none =>
    simp only [makeMeasure, statsInt64, hf]
    exact find_append_of_some _ _ _ _ h
  | some stored =>
    simp only [makeMeasure, statsInt64, hf]
    exact h

theorem canonical_unique (reg : Registry) (m1 m2 : Int64Measure) (h1 : Canonical reg m1)
    (h2 : Canonical reg m2) (hn : m1.name = m2.name) : m1 = m2 := by
  unfold Canonical at h1 h2
  rw [hn] at h1
  exact Option.some.inj (h1.symm.trans h2)

/-- The registries written out in the static initialisers are the ones the
initialisers before them leave behind, starting from the empty registry. -/
theorem static_registries_threaded :
    (makeMeasure [] queuedMetricName "calls currently queued against agent" "").2 =
      [queuedMeasure] ∧
    (makeMeasure [queuedMeasure] callsMetricName "calls created in agent" "").2 =
      [queuedMeasure, callsMeasure] ∧
    (makeMeasure [queuedMeasure, callsMeasure] runningMetricName
      "calls currently running in agent" "").2 =
      [queuedMeasure, callsMeasure, runningMeasure] ∧
    (makeMeasure [queuedMeasure, callsMeasure, runningMeasure] completedMetricName
      "calls completed in agent" "").2 =
      [queuedMeasure, callsMeasure, runningMeasure, completedMeasure] ∧
    (makeMeasure [queuedMeasure, callsMeasure, runningMeasure, completedMeasure]
      failedMetricName "calls failed in agent" "").2 =
      [queuedMeasure, callsMeasure, runningMeasure, completedMeasure, failedMeasure] ∧
    (makeMeasure [queuedMeasure, callsMeasure, runningMeasure, completedMeasure, failedMeasure]
      timedoutMetricName "calls timed out in agent" "").2 =
      [queuedMeasure, callsMeasure, runningMeasure, completedMeasure, failedMeasure,
        timedoutMeasure] ∧
    (makeMeasure
      [queuedMeasure, callsMeasure, runningMeasure, completedMeasure, failedMeasure,
        timedoutMeasure]
      errorsMetricName "calls errored in agent" "").2 =
      [queuedMeasure, callsMeasure, runningMeasure, completedMeasure, failedMeasure,
        timedoutMeasure, errorsMeasure] ∧
    (makeMeasure
      [queuedMeasure, callsMeasure, runningMeasure, completedMeasure, failedMeasure,
        timedoutMeasure, errorsMeasure]
      serverBusyMetricName "calls where server was too busy in agent" "").2 =
      staticRegistry ∧
    (makeMeasure dockerRegistry retryMetricName "per-invocation retry count" "").2 =
      dockerRegistry ++ [perInstanceRetryMeasure] ∧
    (makeMeasure (dockerRegistry ++ [perInstanceRetryMeasure]) runnerSchedLatencyMetricName
      "Runner Scheduler Latency Reported By LBAgent" "msecs").2 =
      dockerRegistry ++ [perInstanceRetryMeasure, runnerSchedLatencyMeasure] := by
  decide

/-! ## Docker measures -/

theorem mapGet_some_mem (m : MeasureMap) (k : String) (v : Int64Measure)
    (h : mapGet m k = some v) : (k, v) ∈ m := by
  unfold mapGet at h
  cases hf : m.find? (fun e => e.1 = k) with
  | none => simp [hf] at h
  | some e =>
    have hk : e.1 = k := by simpa using List.find?_some hf
    have hv : e.2 = v := by simpa [hf] using h
    have hmem : e ∈ m := List.mem_of_find?_eq_some hf
    have he : e = (k, v) := Prod.ext hk hv
    exact he ▸ hmem

theorem mapGet_isSome_iff (m : MeasureMap) (k : String) :
    (mapGet m k).isSome = true ↔ k ∈ m.map Prod.fst := by
  unfold mapGet
  induction m with
  | nil => simp
  | cons e rest ih =>
    by_cases h : e.1 = k
    · simp [List.find?_cons, h]
    · have h2 : ¬ k = e.1 := fun x => h x.symm
      simp [List.find?_cons, h, h2]

theorem string_append_cancel (a b c : String) (h : a ++ b = a ++ c) : b = c := by
  have h1 := congrArg String.data h
  simp only [String.data_append, List.append_cancel_left_eq] at h1
  exact String.ext h1

theorem mapSet_new (m : MeasureMap) (k : String) (v : Int64Measure)
    (h : k ∉ m.map Prod.fst) : mapSet m k v = m ++ [(k, v)] := by
  have h1 : m.any (fun e => decide (e.1 = k)) = false := by
    rw [List.any_eq_false]
    intro e he hk
    exact h (List.mem_map.mpr ⟨e, he, by simpa using hk⟩)
  simp [mapSet, h1]

/-- The entry `initDockerMeasures` stores under `key` when the instrument name
is new to the registry. -/
theorem dockerLoop_fresh (keys : List String) :
    ∀ (reg : Registry) (acc : MeasureMap), keys.Nodup →
      (∀ k ∈ keys, k ∉ acc.map Prod.fst) →
      (∀ x ∈ reg, ∀ k ∈ keys, x.name ≠ "docker_stats_" ++ k) →
      (dockerLoop keys reg acc).1 =
        acc ++ keys.map (fun key =>
          (key, ({ name := "docker_stats_" ++ key,
                   description := "docker container stats for " ++ key,
                   unit := if stringsContains key "cpu" then "cpu" else "bytes" } :
                 Int64Measure))) := by
  induction keys with
  | nil => intro reg acc _ _ _; simp [dockerLoop]
  | cons key rest ih =>
    intro reg acc hnd hacc hreg
    have hkey : key ∉ rest := (List.nodup_cons.mp hnd).1
    have hrest : rest.Nodup := (List.nodup_cons.mp hnd).2
    have hfresh := makeMeasure_fresh reg ("docker_stats_" ++ key)
      ("docker container stats for " ++ key)
      (if stringsContains key "cpu" then "cpu" else "bytes")
      (fun x hx => hreg x hx key (List.mem_cons_self _ _))
    simp only [dockerLoop, hfresh, mapSet_new acc key _ (hacc key (List.mem_cons_self _ _))]
    rw [ih _ _ hrest]
    · simp
    · intro k hk hmem
      simp only [List.map_append, List.map_cons, List.map_nil, List.mem_append,
        List.mem_singleton] at hmem
      rcases hmem with h1 | h1
      · exact hacc k (List.mem_cons_of_mem _ hk) h1
      · exact hkey (h1 ▸ hk)
    · intro x hx k hk
      rcases List.mem_append.mp hx with h1 | h1
      · exact hreg x h1 k (List.mem_cons_of_mem _ hk)
      · simp only [List.mem_singleton] at h1
        subst h1
        intro heq
        have := string_append_cancel _ _ _ heq
        exact hkey (this ▸ hk)

theorem dockerMeasures_eq :
    dockerMeasures =
      dockerKeys.map (fun key =>
        (key, ({ name := "docker_stats_" ++ key,
                 description := "docker container stats for " ++ key,
                 unit := if stringsContains key "cpu" then "cpu" else "bytes" } :
               Int64Measure))) := by
  decide

/-- C6: the map returned by `initDockerMeasures` has exactly the nine docker
resource keys, and the instrument stored under a key `k` is named
`docker_stats_` followed by `k`, with unit `cpu` when `k` contains `cpu` and
`bytes` otherwise; `cpu_total` gets `cpu` and `mem_usage` gets `bytes`.  This
is the map built when the package is initialised, and the same map is built
from every registry that does not already hold one of the nine names. -/
theorem initDockerMeasures_keys_and_units :
    (∀ k : String, (mapGet (initDockerMeasures staticRegistry).1 k).isSome = true ↔
      k ∈ ["net_rx", "net_tx", "mem_limit", "mem_usage", "disk_read", "disk_write",
        "cpu_user", "cpu_total", "cpu_kernel"]) ∧
    (initDockerMeasures staticRegistry).1.length = 9 ∧
    (∀ (k : String) (m : Int64Measure), mapGet (initDockerMeasures staticRegistry).1 k = some m →
      m.name = "docker_stats_" ++ k ∧
      m.unit = if stringsContains k "cpu" then "cpu" else "bytes") ∧
    (mapGet (initDockerMeasures staticRegistry).1 "cpu_total").map (fun m => m.unit) =
      some "cpu" ∧
    (mapGet (initDockerMeasures staticRegistry).1 "mem_usage").map (fun m => m.unit) =
      some "bytes" ∧
    (∀ reg : Registry, (∀ x ∈ reg, ∀ k ∈ dockerKeys, x.name ≠ "docker_stats_" ++ k) →
      (initDockerMeasures reg).1 = (initDockerMeasures staticRegistry).1) := by
  have hd : (initDockerMeasures staticRegistry).1 = dockerMeasures := rfl
  refine ⟨fun k => ?_, by decide, fun k m h => ?_, by decide, by decide, fun reg hreg => ?_⟩
  · rw [mapGet_isSome_iff]
    have hk : (initDockerMeasures staticRegistry).1.map Prod.fst = dockerKeys := by decide
    rw [hk, dockerKeys]
  · have hmem := mapGet_some_mem _ _ _ h
    rw [hd, dockerMeasures_eq, List.mem_map] at hmem
    obtain ⟨key, _, hkey⟩ := hmem
    have h1 : key = k := congrArg Prod.fst hkey
    have h2 := congrArg Prod.snd hkey
    simp only at h2
    subst h1
    rw [← h2]
    exact ⟨rfl, rfl⟩
  · rw [hd, dockerMeasures_eq, initDockerMeasures,
      dockerLoop_fresh dockerKeys reg [] (by decide) (by simp) hreg]
    simp

/-! ## Container measures -/

/-- The loop of the two container initialisers fills the slots left to visit:
nil for an empty key, an instrument named after the key otherwise, and every
instrument in the slice is the one the final registry returns for its name. -/
theorem containerLoop_spec (desc : String → String) (unit : String) (keys : List String) :
    ∀ (done : List (Option Int64Measure)) (reg : Registry),
      (∀ m, some m ∈ done → Canonical reg m) →
      ∃ entries : List (Option Int64Measure),
        (containerLoop desc unit done.length keys reg
          (done ++ List.replicate keys.length none)).1 = done ++ entries ∧
        entries.map (fun m => m.map Int64Measure.name) =
          keys.map (fun k => if k = "" then none else some k) ∧
        (∀ m, some m ∈ done ++ entries →
          Canonical (containerLoop desc unit done.length keys reg
            (done ++ List.replicate keys.length none)).2 m) ∧
        (∀ m, Canonical reg m →
          Canonical (containerLoop desc unit done.length keys reg
            (done ++ List.replicate keys.length none)).2 m) := by
  induction keys with
  | nil =>
    intro done reg hdone
    exact ⟨[], by simp [containerLoop], rfl, by simpa [containerLoop] using hdone,
      by simp [containerLoop]⟩
  | cons key rest ih =>
    intro done reg hdone
    by_cases h : key = ""
    · have hd : ∀ m, some m ∈ done ++ [none] → Canonical reg m := by
        intro m hm
        simp only [List.mem_append, List.mem_singleton] at hm
        rcases hm with h1 | h1
        · exact hdone m h1
        · cases h1
      obtain ⟨entries, h1, h2, h3, h4⟩ := ih (done ++ [none]) reg hd
      simp only [List.length_append, List.length_singleton, List.append_assoc,
        List.singleton_append] at h1 h3 h4
      refine ⟨none :: entries, ?_, ?_, ?_, ?_⟩
      · simp only [containerLoop, h, if_true, List.length_cons, List.replicate_succ]
        exact h1
      · simp [h, h2]
      · simp only [containerLoop, h, if_true, List.length_cons, List.replicate_succ]
        exact h3
      · simp only [containerLoop, h, if_true, List.length_cons, List.replicate_succ]
        exact h4
    · have hd : ∀ m, some m ∈ done ++ [some (makeMeasure reg key (desc key) unit).1] →
          Canonical (makeMeasure reg key (desc key) unit).2 m := by
        intro m hm
        simp only [List.mem_append, List.mem_singleton] at hm
        rcases hm with h1 | h1
        · exact makeMeasure_stable _ _ _ _ _ (hdone m h1)
        · rw [Option.some.inj h1]
          exact makeMeasure_canonical _ _ _ _
      obtain ⟨entries, h1, h2, h3, h4⟩ :=
        ih (done ++ [some (makeMeasure reg key (desc key) unit).1])
          (makeMeasure reg key (desc key) unit).2 hd
      simp only [List.length_append, List.length_singleton, List.append_assoc,
        List.singleton_append] at h1 h3 h4
      have hset : (done ++ List.replicate (rest.length + 1) none).set done.length
          (some (makeMeasure reg key (desc key) unit).1) =
          done ++ some (makeMeasure reg key (desc key) unit).1 ::
            List.replicate rest.length none := by
        rw [List.set_append_right _ _ (Nat.le_refl _), Nat.sub_self, List.replicate_succ,
          List.set_cons_zero]
      refine ⟨some (makeMeasure reg key (desc key) unit).1 :: entries, ?_, ?_, ?_, ?_⟩
      · simp only [containerLoop, h, if_false, List.length_cons, hset]
        exact h1
      · simp [h, h2, makeMeasure_name]
      · simp only [containerLoop, h, if_false, List.length_cons, hset]
        exact h3
      · intro m hm
        simp only [containerLoop, h, if_false, List.length_cons, hset]
        exact h4 m (makeMeasure_stable _ _ _ _ _ hm)

/-- The slice of a container initialiser: its names follow the keys, and two
instruments of the same name in it are the same instrument. -/
theorem containerLoop_init (desc : String → String) (unit : String) (reg : Registry)
    (keys : List String) :
    (containerLoop desc unit 0 keys reg (List.replicate keys.length none)).1.map
        (fun m => m.map Int64Measure.name) =
      keys.map (fun k => if k = "" then none else some k) ∧
    (∀ m1 m2, some m1 ∈ (containerLoop desc unit 0 keys reg
        (List.replicate keys.length none)).1 →
      some m2 ∈ (containerLoop desc unit 0 keys reg (List.replicate keys.length none)).1 →
      m1.name = m2.name → m1 = m2) := by
  obtain ⟨entries, h1, h2, h3, _⟩ := containerLoop_spec desc unit keys [] reg (by simp)
  simp only [List.length_nil, List.nil_append] at h1 h3
  refine ⟨by rw [h1]; exact h2, fun m1 m2 hm1 hm2 hn => ?_⟩
  rw [h1] at hm1 hm2
  exact canonical_unique _ m1 m2 (h3 m1 hm1) (h3 m2 hm2) hn

/-! ## Container views -/

theorem makeKeys_eq (e : Engine) (names : List String) :
    makeKeys e names =
      if names.all e.keyOk then .ok (names.map TagKey.mk) else .error .fatal := by
  induction names with
  | nil => rfl
  | cons n rest ih =>
    cases hn : e.keyOk n
    · simp [makeKeys, hn]
    · cases hr : rest.all e.keyOk
      · simp [makeKeys, hn, ih, hr]
      · simp [makeKeys, hn, ih, hr]

theorem createView_eq (e : Engine) (m : Int64Measure) (agg : Aggregation)
    (tagKeys : List String) :
    createView e (some m) agg tagKeys =
      if tagKeys.all e.keyOk then .ok (builtView agg tagKeys m) else .error .fatal := by
  cases h : tagKeys.all e.keyOk <;> simp [createView, makeKeys_eq, h, builtView]

theorem viewRegister_single (e : Engine) (views : List View) (v : View) :
    viewRegister e views [v] = if e.viewOk v then registerOne views v else .error .fatal := by
  cases h : e.viewOk v
  · simp [viewRegister, h]
  · cases hr : registerOne views v <;> simp [viewRegister, h, registerAll, hr]

theorem same_self (v : View) : v.same v = true := by
  simp [View.same]

/-- The slot of a non-empty key holds an instrument of that name. -/
theorem slot_of_key (ms : List (Option Int64Measure)) (all pre rest : List String)
    (key : String)
    (hP : ms.map (fun m => m.map Int64Measure.name) =
      all.map (fun k => if k = "" then none else some k))
    (hall : all = pre ++ key :: rest) (hk : key ≠ "") :
    ∃ m, ms[pre.length]? = some (some m) ∧ m.name = key := by
  have h1 := congrArg (fun l => l[pre.length]?) hP
  simp only [List.getElem?_map] at h1
  rw [hall, List.getElem?_append_right (Nat.le_refl _)] at h1
  simp only [Nat.sub_self, List.getElem?_cons_zero, Option.map_some', hk, if_false] at h1
  cases hm : ms[pre.length]? with
  | none => simp [hm] at h1
  | some slot =>
    cases slot with
    | none => simp [hm] at h1
    | some m =>
      refine ⟨m, rfl, ?_⟩
      simpa [hm] using h1

/-- The name of an instrument in the slice is a non-empty key. -/
theorem name_of_slot (ms : List (Option Int64Measure)) (all : List String)
    (hP : ms.map (fun m => m.map Int64Measure.name) =
      all.map (fun k => if k = "" then none else some k))
    (m : Int64Measure) (hm : some m ∈ ms) : m.name ∈ all ∧ m.name ≠ "" := by
  have h1 : some m.name ∈ ms.map (fun m => m.map Int64Measure.name) :=
    List.mem_map.mpr ⟨some m, hm, rfl⟩
  rw [hP, List.mem_map] at h1
  obtain ⟨k, hk, hk2⟩ := h1
  by_cases h : k = ""
  · simp [h] at hk2
  · simp only [h, if_false, Option.some.injEq] at hk2
    exact ⟨hk2 ▸ hk, hk2 ▸ h⟩

/-- Whatever the engine decides, a loop of `RegisterContainerViews` over a
slice whose names follow the keys ends in `Fatal` or returns; it never reads
outside the slice and never dereferences a nil instrument. -/
theorem registerLoop_no_panic (e : Engine) (agg : Aggregation)
    (ms : List (Option Int64Measure)) (tagKeys : List String) (all : List String)
    (hP : ms.map (fun m => m.map Int64Measure.name) =
      all.map (fun k => if k = "" then none else some k))
    (keys : List String) :
    ∀ (pre : List String) (views : List View), all = pre ++ keys →
      registerLoop e agg ms tagKeys pre.length keys views = .error .fatal ∨
      ∃ vs, registerLoop e agg ms tagKeys pre.length keys views = .ok vs := by
  induction keys with
  | nil => intro pre views _; right; exact ⟨views, rfl⟩
  | cons key rest ih =>
    intro pre views hall
    have hall2 : all = (pre ++ [key]) ++ rest := by simp [hall]
    have hlen : (pre ++ [key]).length = pre.length + 1 := by simp
    by_cases h : key = ""
    · have h2 := ih (pre ++ [key]) views hall2
      rw [hlen] at h2
      simpa only [registerLoop, h, if_true] using h2
    · obtain ⟨m, hslot, _⟩ := slot_of_key ms all pre rest key hP hall h
      simp only [registerLoop, h, if_false, hslot, createView_eq]
      cases hk : tagKeys.all e.keyOk
      · left; simp
      · simp only [if_true, viewRegister_single]
        cases hv : e.viewOk (builtView agg tagKeys m)
        · left; simp
        · simp only [if_true, registerOne]
          cases hf : views.find? (fun x => x.name = (builtView agg tagKeys m).name) with
          | none =>
            have h2 := ih (pre ++ [key]) (views ++ [builtView agg tagKeys m]) hall2
            rw [hlen] at h2
            simpa using h2
          | some x =>
            cases hs : x.same (builtView agg tagKeys m)
            · left; simp [hs]
            · have h2 := ih (pre ++ [key]) views hall2
              rw [hlen] at h2
              simpa [hs] using h2

/-- When every tag key and every built view passes the name checks and each
registered view that bears the name of an instrument of the slice is the view
built from it, a loop of `RegisterContainerViews` returns, adding one view for
each non-empty key whose name was not registered yet. -/
theorem registerLoop_ok (e : Engine) (agg : Aggregation)
    (ms : List (Option Int64Measure)) (tagKeys : List String) (all : List String)
    (hP : ms.map (fun m => m.map Int64Measure.name) =
      all.map (fun k => if k = "" then none else some k))
    (hU : ∀ m1 m2, some m1 ∈ ms → some m2 ∈ ms → m1.name = m2.name → m1 = m2)
    (hK : tagKeys.all e.keyOk = true)
    (hV : ∀ m, some m ∈ ms → e.viewOk (builtView agg tagKeys m) = true)
    (keys : List String) :
    ∀ (pre : List String) (views : List View), all = pre ++ keys →
      (∀ x ∈ views, ∀ m, some m ∈ ms → x.name = m.name → x = builtView agg tagKeys m) →
      ∃ new : List View,
        registerLoop e agg ms tagKeys pre.length keys views = .ok (views ++ new) ∧
        (∀ x ∈ new, ∃ m, some m ∈ ms ∧ x = builtView agg tagKeys m ∧
          x.name ∈ keys ∧ x.name ≠ "") ∧
        (∀ k ∈ keys, k ≠ "" → k ∈ (views ++ new).map View.name) ∧
        (new.map View.name).Nodup ∧
        (∀ x ∈ new, x.name ∉ views.map View.name) := by
  induction keys with
  | nil =>
    intro pre views _ _
    exact ⟨[], by simp [registerLoop], by simp, by simp, by simp, by simp⟩
  | cons key rest ih =>
    intro pre views hall hInv
    have hall2 : all = (pre ++ [key]) ++ rest := by simp [hall]
    have hlen : (pre ++ [key]).length = pre.length + 1 := by simp
    by_cases h : key = ""
    · obtain ⟨new, h1, h2, h3, h4, h5⟩ := ih (pre ++ [key]) views hall2 hInv
      rw [hlen] at h1
      refine ⟨new, by simpa only [registerLoop, h, if_true] using h1, ?_, ?_, h4, h5⟩
      · intro x hx
        obtain ⟨m, hm1, hm2, hm3, hm4⟩ := h2 x hx
        exact ⟨m, hm1, hm2, List.mem_cons_of_mem _ hm3, hm4⟩
      · intro k hk hne
        rcases List.mem_cons.mp hk with h6 | h6
        · exact absurd (h6.trans h) hne
        · exact h3 k h6 hne
    · obtain ⟨m, hslot, hname⟩ := slot_of_key ms all pre rest key hP hall h
      have hmem : some m ∈ ms := List.getElem?_mem hslot
      have hvn : (builtView agg tagKeys m).name = key := hname
      simp only [registerLoop, h, if_false, hslot, createView_eq, hK, if_true,
        viewRegister_single, hV m hmem, registerOne]
      cases hf : views.find? (fun x => x.name = (builtView agg tagKeys m).name) with
      | none =>
        have hnone : ∀ x ∈ views, x.name ≠ key := by
          intro x hx
          have := List.find?_eq_none.mp hf x hx
          simpa [hvn] using this
        have hInv2 : ∀ x ∈ views ++ [builtView agg tagKeys m], ∀ m', some m' ∈ ms →
            x.name = m'.name → x = builtView agg tagKeys m' := by
          intro x hx m' hm' hn
          rcases List.mem_append.mp hx with h6 | h6
          · exact hInv x h6 m' hm' hn
          · simp only [List.mem_singleton] at h6
            subst h6
            have : m = m' := hU m m' hmem hm' hn
            rw [this]
        obtain ⟨new, h1, h2, h3, h4, h5⟩ :=
          ih (pre ++ [key]) (views ++ [builtView agg tagKeys m]) hall2 hInv2
        rw [hlen] at h1
        refine ⟨builtView agg tagKeys m :: new, ?_, ?_, ?_, ?_, ?_⟩
        · simp only [h1, List.append_assoc, List.singleton_append]
        · intro x hx
          rcases List.mem_cons.mp hx with h6 | h6
          · subst h6
            exact ⟨m, hmem, rfl, by rw [hvn]; exact List.mem_cons_self _ _,
              by rw [hvn]; exact h⟩
          · obtain ⟨m', hm1, hm2, hm3, hm4⟩ := h2 x h6
            exact ⟨m', hm1, hm2, List.mem_cons_of_mem _ hm3, hm4⟩
        · intro k hk hne
          rcases List.mem_cons.mp hk with h6 | h6
          · subst h6
            simp [hvn]
          · have := h3 k h6 hne
            simpa [List.append_assoc] using this
        · rw [List.map_cons, List.nodup_cons]
          refine ⟨?_, h4⟩
          intro hin
          obtain ⟨x, hx, hxn⟩ := List.mem_map.mp hin
          exact h5 x hx (by rw [hxn]; simp)
        · intro x hx
          rcases List.mem_cons.mp hx with h6 | h6
          · subst h6
            intro hin
            obtain ⟨y, hy, hyn⟩ := List.mem_map.mp hin
            exact hnone y hy (hyn.trans hvn)
          · intro hin
            exact h5 x h6 (by simp only [List.map_append, List.mem_append]; left; exact hin)
      | some x =>
        have hx : x ∈ views := List.mem_of_find?_eq_some hf
        have hxn : x.name = (builtView agg tagKeys m).name := by
          simpa using List.find?_some hf
        have hxe : x = builtView agg tagKeys m := hInv x hx m hmem hxn
        have hs : x.same (builtView agg tagKeys m) = true := by rw [hxe]; exact same_self _
        obtain ⟨new, h1, h2, h3, h4, h5⟩ := ih (pre ++ [key]) views hall2 hInv
        rw [hlen] at h1
        refine ⟨new, by simpa only [hs, if_true] using h1, ?_, ?_, h4, h5⟩
        · intro y hy
          obtain ⟨m', hm1, hm2, hm3, hm4⟩ := h2 y hy
          exact ⟨m', hm1, hm2, List.mem_cons_of_mem _ hm3, hm4⟩
        · intro k hk hne
          rcases List.mem_cons.mp hk with h6 | h6
          · subst h6
            simp only [List.map_append, List.mem_append]
            left
            exact List.mem_map.mpr ⟨x, hx, hxn.trans hvn⟩
          · exact h3 k h6 hne

theorem countP_of_names (ms : List (Option Int64Measure)) (all : List String)
    (hP : ms.map (fun m => m.map Int64Measure.name) =
      all.map (fun k => if k = "" then none else some k)) :
    ms.countP (fun m => m.isSome) = all.countP (fun k => k ≠ "") := by
  have h1 : ms.countP (fun m => m.isSome) =
      (ms.map (fun m => m.map Int64Measure.name)).countP (fun m => m.isSome) := by
    rw [List.countP_map]
    exact List.countP_congr (fun m _ => by cases m <;> simp)
  rw [h1, hP, List.countP_map]
  exact List.countP_congr (fun k _ => by by_cases h : k = "" <;> simp [h])

/-- The two loops of `RegisterContainerViews` together, on slices whose names
follow the keys. -/
theorem registerContainerViews_no_panic (e : Engine) (gaugeKeys timeKeys : List String)
    (gm tm : List (Option Int64Measure)) (tagKeys : List String) (registered : List View)
    (hg : gm.map (fun m => m.map Int64Measure.name) =
      gaugeKeys.map (fun k => if k = "" then none else some k))
    (ht : tm.map (fun m => m.map Int64Measure.name) =
      timeKeys.map (fun k => if k = "" then none else some k)) :
    RegisterContainerViews e gaugeKeys gm timeKeys tm tagKeys registered = .error .fatal ∨
    ∃ vs, RegisterContainerViews e gaugeKeys gm timeKeys tm tagKeys registered = .ok vs := by
  unfold RegisterContainerViews
  rcases registerLoop_no_panic e .count gm tagKeys gaugeKeys hg gaugeKeys [] registered rfl
    with h1 | ⟨vs, h1⟩
  · left
    simp only [List.length_nil] at h1
    rw [h1]
  · simp only [List.length_nil] at h1
    rw [h1]
    rcases registerLoop_no_panic e (.distribution []) tm tagKeys timeKeys ht timeKeys [] vs rfl
      with h2 | ⟨vs2, h2⟩
    · left; simpa using h2
    · right; exact ⟨vs2, by simpa using h2⟩

theorem registerContainerViews_ok (e : Engine) (gaugeKeys timeKeys : List String)
    (gm tm : List (Option Int64Measure)) (tagKeys : List String) (registered : List View)
    (hg : gm.map (fun m => m.map Int64Measure.name) =
      gaugeKeys.map (fun k => if k = "" then none else some k))
    (ht : tm.map (fun m => m.map Int64Measure.name) =
      timeKeys.map (fun k => if k = "" then none else some k))
    (hgU : ∀ m1 m2, some m1 ∈ gm → some m2 ∈ gm → m1.name = m2.name → m1 = m2)
    (htU : ∀ m1 m2, some m1 ∈ tm → some m2 ∈ tm → m1.name = m2.name → m1 = m2)
    (hK : tagKeys.all e.keyOk = true)
    (hV : ∀ v : View, v.name ≠ "" → (v.name ∈ gaugeKeys ∨ v.name ∈ timeKeys) →
      e.viewOk v = true)
    (hR : ∀ x ∈ registered, x.name ≠ "" → x.name ∉ gaugeKeys ∧ x.name ∉ timeKeys)
    (hD : ∀ k ∈ gaugeKeys, k ≠ "" → k ∉ timeKeys) :
    ∃ new : List View,
      RegisterContainerViews e gaugeKeys gm timeKeys tm tagKeys registered =
        .ok (registered ++ new) ∧
      (new.map View.name).Nodup ∧
      (∀ k, k ∈ new.map View.name ↔ k ≠ "" ∧ (k ∈ gaugeKeys ∨ k ∈ timeKeys)) ∧
      (∀ x ∈ new, (x.name ∈ gaugeKeys → x.aggregation = Aggregation.count) ∧
        (x.name ∈ timeKeys → x.aggregation = Aggregation.distribution [])) := by
  have hgV : ∀ m, some m ∈ gm → e.viewOk (builtView .count tagKeys m) = true := by
    intro m hm
    have hn := name_of_slot gm gaugeKeys hg m hm
    exact hV _ hn.2 (Or.inl hn.1)
  have htV : ∀ m, some m ∈ tm → e.viewOk (builtView (.distribution []) tagKeys m) = true := by
    intro m hm
    have hn := name_of_slot tm timeKeys ht m hm
    exact hV _ hn.2 (Or.inr hn.1)
  have hInv1 : ∀ x ∈ registered, ∀ m, some m ∈ gm → x.name = m.name →
      x = builtView .count tagKeys m := by
    intro x hx m hm hn
    have h1 := name_of_slot gm gaugeKeys hg m hm
    exact absurd (hn ▸ h1.1) (hR x hx (hn ▸ h1.2)).1
  obtain ⟨new1, h1, h2, h3, h4, h5⟩ :=
    registerLoop_ok e .count gm tagKeys gaugeKeys hg hgU hK hgV gaugeKeys [] registered rfl hInv1
  simp only [List.length_nil] at h1
  have hInv2 : ∀ x ∈ registered ++ new1, ∀ m, some m ∈ tm → x.name = m.name →
      x = builtView (.distribution []) tagKeys m := by
    intro x hx m hm hn
    have ht1 := name_of_slot tm timeKeys ht m hm
    rcases List.mem_append.mp hx with h6 | h6
    · exact absurd (hn ▸ ht1.1) (hR x h6 (hn ▸ ht1.2)).2
    · obtain ⟨m', _, _, hm3, hm4⟩ := h2 x h6
      exact absurd (hn ▸ ht1.1) (hD x.name hm3 hm4)
  obtain ⟨new2, k1, k2, k3, k4, k5⟩ :=
    registerLoop_ok e (.distribution []) tm tagKeys timeKeys ht htU hK htV timeKeys []
      (registered ++ new1) rfl hInv2
  simp only [List.length_nil] at k1
  refine ⟨new1 ++ new2, ?_, ?_, ?_, ?_⟩
  · unfold RegisterContainerViews
    rw [h1]
    simpa [List.append_assoc] using k1
  · rw [List.map_append, List.nodup_append]
    refine ⟨h4, k4, ?_⟩
    intro n hn1 hn2
    obtain ⟨x, hx, hxn⟩ := List.mem_map.mp hn2
    refine k5 x hx ?_
    rw [hxn, List.map_append, List.mem_append]
    exact Or.inr hn1
  · intro k
    constructor
    · intro hk
      rw [List.map_append, List.mem_append] at hk
      rcases hk with h6 | h6
      · obtain ⟨x, hx, hxn⟩ := List.mem_map.mp h6
        obtain ⟨_, _, _, hm3, hm4⟩ := h2 x hx
        exact ⟨hxn ▸ hm4, Or.inl (hxn ▸ hm3)⟩
      · obtain ⟨x, hx, hxn⟩ := List.mem_map.mp h6
        obtain ⟨_, _, _, hm3, hm4⟩ := k2 x hx
        exact ⟨hxn ▸ hm4, Or.inr (hxn ▸ hm3)⟩
    · rintro ⟨hne, hk | hk⟩
      · have h6 := h3 k hk hne
        rw [List.map_append, List.mem_append] at h6 ⊢
        rcases h6 with h7 | h7
        · obtain ⟨x, hx, hxn⟩ := List.mem_map.mp h7
          exact absurd (hxn ▸ hk) (hR x hx (hxn ▸ hne)).1
        · exact Or.inl h7
      · have h6 := k3 k hk hne
        rw [List.map_append, List.mem_append, List.map_append, List.mem_append] at h6
        rw [List.map_append, List.mem_append]
        rcases h6 with (h7 | h7) | h7
        · obtain ⟨x, hx, hxn⟩ := List.mem_map.mp h7
          exact absurd (hxn ▸ hk) (hR x hx (hxn ▸ hne)).2
        · exact Or.inl h7
        · exact Or.inr h7
  · intro x hx
    rcases List.mem_append.mp hx with h6 | h6
    · obtain ⟨m, _, hm2, hm3, hm4⟩ := h2 x h6
      refine ⟨fun _ => by rw [hm2]; rfl, fun hin => absurd hin (hD x.name hm3 hm4)⟩
    · obtain ⟨m, _, hm2, hm3, hm4⟩ := k2 x h6
      refine ⟨fun hin => absurd hm3 (hD x.name hin hm4), fun _ => by rw [hm2]; rfl⟩

theorem length_of_distinct_names (new : List View) (gaugeKeys timeKeys : List String)
    (hnd : (new.map View.name).Nodup)
    (hiff : ∀ k, k ∈ new.map View.name ↔ k ≠ "" ∧ (k ∈ gaugeKeys ∨ k ∈ timeKeys))
    (hD : ∀ k ∈ gaugeKeys, k ≠ "" → k ∉ timeKeys)
    (hg : (gaugeKeys.filter (fun k => k ≠ "")).Nodup)
    (ht : (timeKeys.filter (fun k => k ≠ "")).Nodup) :
    new.length = gaugeKeys.countP (fun k => k ≠ "") + timeKeys.countP (fun k => k ≠ "") := by
  have hdis : List.Disjoint (gaugeKeys.filter (fun k => k ≠ ""))
      (timeKeys.filter (fun k => k ≠ "")) := by
    intro k hk1 hk2
    have h1 := List.mem_filter.mp hk1
    have h2 := List.mem_filter.mp hk2
    exact hD k h1.1 (by simpa using h1.2) h2.1
  have hnd2 : (gaugeKeys.filter (fun k => k ≠ "") ++ timeKeys.filter (fun k => k ≠ "")).Nodup :=
    List.Nodup.append hg ht hdis
  have hperm : (new.map View.name).Perm
      (gaugeKeys.filter (fun k => k ≠ "") ++ timeKeys.filter (fun k => k ≠ "")) := by
    rw [List.perm_ext_iff_of_nodup hnd hnd2]
    intro k
    rw [hiff k]
    simp only [List.mem_append, List.mem_filter, decide_eq_true_eq]
    tauto
  have hlen := hperm.length_eq
  simpa [List.countP_eq_length_filter] using hlen

/-- C7: for every key list and every state of the instrument registry,
`initContainerGaugeMeasures` and `initContainerTimeMeasures` return a slice as
long as the key list whose entry `i` is an instrument named `keys[i]` when
`keys[i]` is non-empty and nil when it is empty, so there are as many
instruments as non-empty keys; and `RegisterContainerViews`, run on these
slices with any engine, never reads an index out of range and never
dereferences a nil instrument.  When the tag keys and the views of the keys
pass the name checks of the engine, no registered view bears the name of a key
and no key is both a gauge and a time key, it returns and has registered, for
every non-empty key, exactly one view of that name and no other view: a
`Count` view for a gauge key, a distribution view for a time key; with
pairwise distinct non-empty keys that is as many views as non-empty keys. -/
theorem container_measures_and_views (reg1 reg2 : Registry) (gaugeKeys timeKeys : List String) :
    (initContainerGaugeMeasures reg1 gaugeKeys).1.length = gaugeKeys.length ∧
    (initContainerTimeMeasures reg2 timeKeys).1.length = timeKeys.length ∧
    (initContainerGaugeMeasures reg1 gaugeKeys).1.map (fun m => m.map Int64Measure.name) =
      gaugeKeys.map (fun k => if k = "" then none else some k) ∧
    (initContainerTimeMeasures reg2 timeKeys).1.map (fun m => m.map Int64Measure.name) =
      timeKeys.map (fun k => if k = "" then none else some k) ∧
    (initContainerGaugeMeasures reg1 gaugeKeys).1.countP (fun m => m.isSome) =
      gaugeKeys.countP (fun k => k ≠ "") ∧
    (initContainerTimeMeasures reg2 timeKeys).1.countP (fun m => m.isSome) =
      timeKeys.countP (fun k => k ≠ "") ∧
    (∀ (e : Engine) (tagKeys : List String) (registered : List View),
      RegisterContainerViews e gaugeKeys (initContainerGaugeMeasures reg1 gaugeKeys).1 timeKeys
          (initContainerTimeMeasures reg2 timeKeys).1 tagKeys registered ≠
        .error .indexOutOfRange ∧
      RegisterContainerViews e gaugeKeys (initContainerGaugeMeasures reg1 gaugeKeys).1 timeKeys
          (initContainerTimeMeasures reg2 timeKeys).1 tagKeys registered ≠
        .error .nilDereference ∧
      (tagKeys.all e.keyOk = true →
        (∀ v : View, v.name ≠ "" → (v.name ∈ gaugeKeys ∨ v.name ∈ timeKeys) →
          e.viewOk v = true) →
        (∀ x ∈ registered, x.name ≠ "" → x.name ∉ gaugeKeys ∧ x.name ∉ timeKeys) →
        (∀ k ∈ gaugeKeys, k ≠ "" → k ∉ timeKeys) →
        ∃ new : List View,
          RegisterContainerViews e gaugeKeys (initContainerGaugeMeasures reg1 gaugeKeys).1
            timeKeys (initContainerTimeMeasures reg2 timeKeys).1 tagKeys registered =
              .ok (registered ++ new) ∧
          (new.map View.name).Nodup ∧
          (∀ k, k ∈ new.map View.name ↔ k ≠ "" ∧ (k ∈ gaugeKeys ∨ k ∈ timeKeys)) ∧
          (∀ x ∈ new, (x.name ∈ gaugeKeys → x.aggregation = Aggregation.count) ∧
            (x.name ∈ timeKeys → x.aggregation = Aggregation.distribution [])) ∧
          ((gaugeKeys.filter (fun k => k ≠ "")).Nodup →
            (timeKeys.filter (fun k => k ≠ "")).Nodup →
            new.length =
              gaugeKeys.countP (fun k => k ≠ "") + timeKeys.countP (fun k => k ≠ "")))) := by
  have hg := containerLoop_init (fun key => "containers in state " ++ key) "" reg1 gaugeKeys
  have ht := containerLoop_init (fun key => "time spent in container state " ++ key) "ms"
    reg2 timeKeys
  have hgP : (initContainerGaugeMeasures reg1 gaugeKeys).1.map
      (fun m => m.map Int64Measure.name) =
      gaugeKeys.map (fun k => if k = "" then none else some k) := hg.1
  have htP : (initContainerTimeMeasures reg2 timeKeys).1.map
      (fun m => m.map Int64Measure.name) =
      timeKeys.map (fun k => if k = "" then none else some k) := ht.1
  refine ⟨?_, ?_, hgP, htP, countP_of_names _ _ hgP, countP_of_names _ _ htP, ?_⟩
  · simpa using congrArg List.length hgP
  · simpa using congrArg List.length htP
  · intro e tagKeys registered
    have hnp := registerContainerViews_no_panic e gaugeKeys timeKeys
      (initContainerGaugeMeasures reg1 gaugeKeys).1 (initContainerTimeMeasures reg2 timeKeys).1
      tagKeys registered hgP htP
    refine ⟨?_, ?_, ?_⟩
    · rcases hnp with h | ⟨vs, h⟩ <;> rw [h] <;> simp
    · rcases hnp with h | ⟨vs, h⟩ <;> rw [h] <;> simp
    · intro hK hV hR hD
      obtain ⟨new, h1, h2, h3, h4⟩ := registerContainerViews_ok e gaugeKeys timeKeys
        (initContainerGaugeMeasures reg1 gaugeKeys).1
        (initContainerTimeMeasures reg2 timeKeys).1 tagKeys registered hgP htP hg.2 ht.2
        hK hV hR hD
      exact ⟨new, h1, h2, h3, h4,
        fun hgn htn => length_of_distinct_names new gaugeKeys timeKeys h2 h3 hD hgn htn⟩

/-- C7 on the gauge keys `idle`, a placeholder, `busy` and the time keys a
placeholder, `wait`, after the static instruments were created. -/
theorem container_measures_and_views_witness :
    ∃ new : List View,
      RegisterContainerViews acceptAll ["idle", "", "busy"]
        (initContainerGaugeMeasures staticRegistry ["idle", "", "busy"]).1 ["", "wait"]
        (initContainerTimeMeasures staticRegistry ["", "wait"]).1 ["fn_id"] [] =
          .ok ([] ++ new) ∧
      (new.map View.name).Nodup ∧
      (∀ k, k ∈ new.map View.name ↔
        k ≠ "" ∧ (k ∈ ["idle", "", "busy"] ∨ k ∈ ["", "wait"])) ∧
      new.length = 3 :=
  have h := ((container_measures_and_views staticRegistry staticRegistry ["idle", "", "busy"]
    ["", "wait"]).2.2.2.2.2.2 acceptAll ["fn_id"] []).2.2 (by decide) (fun _ _ _ => rfl)
    (by simp) (by decide)
  let ⟨new, h1, h2, h3, _, h5⟩ := h
  ⟨new, h1, h2, h3, (h5 (by decide) (by decide)).trans (by decide)⟩

/-- C7 evaluated with a repeated gauge key: the second `idle` finds the view of
the first registered and adds nothing. -/
theorem container_measures_and_views_example :
    (initContainerGaugeMeasures staticRegistry ["idle", "", "busy", "idle"]).1.map
        (fun m => m.map Int64Measure.name) =
      [some "idle", none, some "busy", some "idle"] ∧
    (RegisterContainerViews acceptAll ["idle", "", "busy", "idle"]
        (initContainerGaugeMeasures staticRegistry ["idle", "", "busy", "idle"]).1 ["", "wait"]
        (initContainerTimeMeasures staticRegistry ["", "wait"]).1 ["fn_id"] []).toOption.map
          (fun vs => vs.map (fun v => (v.name, v.aggregation))) =
      some [("idle", Aggregation.count), ("busy", Aggregation.count),
        ("wait", Aggregation.distribution [])] := by
  decide

/-! ## The container gauge view -/

theorem samplesOf_recordDeltas (m : Int64Measure) (deltas : List Int) :
    ∀ log : Recorded, samplesOf m (recordDeltas m log deltas) = samplesOf m log ++ deltas := by
  induction deltas with
  | nil => intro log; simp [recordDeltas]
  | cons d rest ih =>
    intro log
    have h := ih (statsRecord log (m.M d))
    simp only [recordDeltas, List.foldl_cons] at h ⊢
    rw [h]
    simp [statsRecord, samplesOf_append, samplesOf, Int64Measure.M]

/-- C8: the view that `RegisterContainerViews` registers for a container state
(here `idle`) has the `Count` aggregation, so its value is the number of deltas
recorded into the gauge, not their sum: after one +1 and one -1 it is 2, while
the signed count of containers in the state is 0. -/
theorem container_gauge_view_counts_recordings :
    ∃ v : View,
      RegisterContainerViews acceptAll ["idle"]
        (initContainerGaugeMeasures staticRegistry ["idle"]).1 []
        (initContainerTimeMeasures staticRegistry []).1 [] [] = .ok [v] ∧
      v.aggregation = Aggregation.count ∧
      v.measure = (makeMeasure staticRegistry "idle" "containers in state idle" "").1 ∧
      (∀ deltas : List Int, viewValue v (recordDeltas v.measure [] deltas) = deltas.length) ∧
      viewValue v (recordDeltas v.measure [] [1, -1]) = 2 ∧
      sumData v.measure (recordDeltas v.measure [] [1, -1]) = 0 := by
  refine ⟨{ name := "idle", description := "containers in state idle",
            measure := (makeMeasure staticRegistry "idle" "containers in state idle" "").1,
            tagKeys := [], aggregation := Aggregation.count }, ?_, rfl, rfl, ?_, ?_, ?_⟩
  · rfl
  · intro deltas
    simp only [viewValue, countData]
    rw [samplesOf_recordDeltas]
    simp [samplesOf]
  · decide
  · decide

/-! ## Instrument names that collide -/

theorem makeMeasure_again (reg : Registry) (name d1 u1 d2 u2 : String) :
    makeMeasure (makeMeasure reg name d1 u1).2 name d2 u2 = makeMeasure reg name d1 u1 := by
  have h := makeMeasure_canonical reg name d1 u1
  unfold Canonical at h
  rw [makeMeasure_name] at h
  exact makeMeasure_stored _ _ _ _ _ h

theorem filterMap_names (ms : List (Option Int64Measure)) :
    (ms.filterMap id).map Int64Measure.name =
      (ms.map (fun m => m.map Int64Measure.name)).filterMap id := by
  induction ms with
  | nil => rfl
  | cons m rest ih =>
    cases m
    · simpa [List.filterMap_cons] using ih
    · simpa [List.filterMap_cons] using ih

theorem names_of_slots (ms : List (Option Int64Measure)) (keys : List String)
    (hP : ms.map (fun m => m.map Int64Measure.name) =
      keys.map (fun k => if k = "" then none else some k)) :
    (ms.filterMap id).map Int64Measure.name = keys.filter (fun k => k ≠ "") := by
  rw [filterMap_names, hP]
  clear hP
  induction keys with
  | nil => rfl
  | cons k rest ih =>
    by_cases h : k = ""
    · simpa [h, List.filter_cons] using ih
    · simpa [h, List.filter_cons] using ih

/-- C9, as the code has it: creating an instrument never fails.  For every
state of the registry, `makeMeasure` returns an instrument of the requested
name that the registry holds afterwards; a second `makeMeasure` call with the
same name is not rejected: it returns the instrument of the first call and
leaves the registry as it was; a call with a name the registry does not hold
creates the instrument with the given description and unit.  For every key
list the slices of `initContainerGaugeMeasures` and `initContainerTimeMeasures`
hold, in order, one instrument for each non-empty key, named after it, and the
slots of a repeated key hold the same instrument. -/
theorem makeMeasure_never_rejects :
    (∀ (reg : Registry) (name desc unit : String),
      (makeMeasure reg name desc unit).1.name = name ∧
      (makeMeasure reg name desc unit).1 ∈ (makeMeasure reg name desc unit).2) ∧
    (∀ (reg : Registry) (name d1 u1 d2 u2 : String),
      makeMeasure (makeMeasure reg name d1 u1).2 name d2 u2 =
        ((makeMeasure reg name d1 u1).1, (makeMeasure reg name d1 u1).2)) ∧
    (∀ (reg : Registry) (name desc unit : String), (∀ x ∈ reg, x.name ≠ name) →
      makeMeasure reg name desc unit =
        ({ name := name, description := desc, unit := unit },
          reg ++ [{ name := name, description := desc, unit := unit }])) ∧
    (∀ (reg : Registry) (keys : List String),
      ((initContainerGaugeMeasures reg keys).1.filterMap id).map Int64Measure.name =
        keys.filter (fun k => k ≠ "") ∧
      ∀ m1 m2, some m1 ∈ (initContainerGaugeMeasures reg keys).1 →
        some m2 ∈ (initContainerGaugeMeasures reg keys).1 → m1.name = m2.name → m1 = m2) ∧
    (∀ (reg : Registry) (keys : List String),
      ((initContainerTimeMeasures reg keys).1.filterMap id).map Int64Measure.name =
        keys.filter (fun k => k ≠ "") ∧
      ∀ m1 m2, some m1 ∈ (initContainerTimeMeasures reg keys).1 →
        some m2 ∈ (initContainerTimeMeasures reg keys).1 → m1.name = m2.name → m1 = m2) := by
  refine ⟨fun reg name desc unit => ⟨makeMeasure_name _ _ _ _, ?_⟩,
    fun reg name d1 u1 d2 u2 => makeMeasure_again reg name d1 u1 d2 u2,
    fun reg name desc unit h => makeMeasure_fresh reg name desc unit h,
    fun reg keys => ?_, fun reg keys => ?_⟩
  · exact List.mem_of_find?_eq_some (makeMeasure_canonical reg name desc unit)
  · have h := containerLoop_init (fun key => "containers in state " ++ key) "" reg keys
    exact ⟨names_of_slots _ keys h.1, h.2⟩
  · have h := containerLoop_init (fun key => "time spent in container state " ++ key) "ms"
      reg keys
    exact ⟨names_of_slots _ keys h.1, h.2⟩

/-- C9 as stated fails: with the gauge keys `idle`, `idle` the second
`makeMeasure` call with the name `idle` is not rejected and returns the
instrument of the first; the gauge key `queued` gets the static queued
instrument; and `makeMeasure` with the name `queued` and another description
and unit returns the static queued instrument and leaves the registry as it
was. -/
theorem duplicate_names_not_rejected :
    (initContainerGaugeMeasures staticRegistry ["idle", "idle"]).1 =
      [some { name := "idle", description := "containers in state idle", unit := "" },
       some { name := "idle", description := "containers in state idle", unit := "" }] ∧
    (initContainerGaugeMeasures staticRegistry ["queued"]).1 = [some queuedMeasure] ∧
    makeMeasure staticRegistry "queued" "other description" "other unit" =
      (queuedMeasure, staticRegistry) := by
  decide

end Agent
